import Mathlib

/-!
Verification of the KindScript rule-binding and checking engine.

This file gives a shallow embedding of the engine found in the repository:
the AST fragment inspected by the intrinsic property checks, the intrinsic
checks themselves (`checkNoImports`, `checkNoConsole`, `checkImmutable`,
`checkStatic`, `checkNoSideEffects`, `checkNoMutation`, `checkNoIo`,
`checkPure`), the numeric `checkMaxFanOut` check, target resolution
(`resolveValueNodes`), diagnostic assembly (`createDiagnostic`), the
per-symbol checker (`checkSymbol`), the memoizing session checker
(`checkProgram` / `checkSourceFile`), and the config binder (`ksBind` with
`detectValueKind`).  TypeScript `Map`s and objects are modelled as
insertion-ordered association lists, the `sym-N` string ids as their
numeric counter values, and source positions as explicit `Span` records.
-/

namespace KSC

/-- A source position: `getStart`/`getWidth` data of a syntax node. -/
structure Span where
  start : Nat
  width : Nat
deriving DecidableEq

/-- The operator-token kinds the checks inspect (`ts.SyntaxKind` fragment). -/
inductive SyntaxKind where
  | equalsToken
  | plusEqualsToken
  | minusEqualsToken
  | asteriskEqualsToken
  | slashEqualsToken
  | percentEqualsToken
  | ampersandEqualsToken
  | barEqualsToken
  | caretEqualsToken
  | lessThanLessThanEqualsToken
  | greaterThanGreaterThanEqualsToken
  | greaterThanGreaterThanGreaterThanEqualsToken
  | asteriskAsteriskEqualsToken
  | barBarEqualsToken
  | ampersandAmpersandEqualsToken
  | questionQuestionEqualsToken
  | plusPlusToken
  | minusMinusToken
  | importKeyword
  | newKeyword
  | plusToken
  | minusToken
  | lessThanToken
deriving DecidableEq

/-- `isAssignmentOperator` from the checker: the sixteen assignment tokens. -/
def isAssignmentOperator : SyntaxKind → Bool
  | .equalsToken => true
  | .plusEqualsToken => true
  | .minusEqualsToken => true
  | .asteriskEqualsToken => true
  | .slashEqualsToken => true
  | .percentEqualsToken => true
  | .ampersandEqualsToken => true
  | .barEqualsToken => true
  | .caretEqualsToken => true
  | .lessThanLessThanEqualsToken => true
  | .greaterThanGreaterThanEqualsToken => true
  | .greaterThanGreaterThanGreaterThanEqualsToken => true
  | .asteriskAsteriskEqualsToken => true
  | .barBarEqualsToken => true
  | .ampersandAmpersandEqualsToken => true
  | .questionQuestionEqualsToken => true
  | _ => false

/-- Source text of an operator token (`operatorToken.getText()`). -/
def opTokenText : SyntaxKind → String
  | .equalsToken => "="
  | .plusEqualsToken => "+="
  | .minusEqualsToken => "-="
  | .asteriskEqualsToken => "*="
  | .slashEqualsToken => "/="
  | .percentEqualsToken => "%="
  | .ampersandEqualsToken => "&="
  | .barEqualsToken => "|="
  | .caretEqualsToken => "^="
  | .lessThanLessThanEqualsToken => "<<="
  | .greaterThanGreaterThanEqualsToken => ">>="
  | .greaterThanGreaterThanGreaterThanEqualsToken => ">>>="
  | .asteriskAsteriskEqualsToken => "**="
  | .barBarEqualsToken => "||="
  | .ampersandAmpersandEqualsToken => "&&="
  | .questionQuestionEqualsToken => "?\x3f="
  | .plusPlusToken => "++"
  | .minusMinusToken => "--"
  | .importKeyword => "import"
  | .newKeyword => "new"
  | .plusToken => "+"
  | .minusToken => "-"
  | .lessThanToken => "<"

mutual
/--
The TypeScript AST fragment the checks pattern-match on.  Statement kinds
appearing in the `checkNoSideEffects` allow-list are separate constructors;
expression kinds the visitors test (`isBinaryExpression`,
`isPrefixUnaryExpression`, `isPostfixUnaryExpression`, `isDeleteExpression`,
call expressions with an `import`-keyword callee, `isMetaProperty`,
`isPropertyAccessExpression`, `isElementAccessExpression`, identifiers and
string literals) are likewise separate; every other node kind is
`otherNode` (children only, as seen by `ts.forEachChild`).  Pure tokens
(operator tokens, the `name` identifier of a property access) carry no
checkable structure and are kept as plain data on their parent.
-/
inductive Node where
  | importDecl (sp : Span) (moduleSpecifier : Node)
  | importEqualsDecl (sp : Span)
  | exportDecl (sp : Span)
  | exportAssignment (sp : Span) (expr : Node)
  | typeAliasDecl (sp : Span)
  | interfaceDecl (sp : Span)
  | variableStatement (sp : Span) (isConst : Bool) (inits : NodeList)
  | functionDecl (sp : Span) (body : NodeList)
  | classDecl (sp : Span) (body : NodeList)
  | enumDecl (sp : Span) (inits : NodeList)
  | moduleDecl (sp : Span) (body : NodeList)
  | expressionStatement (sp : Span) (expr : Node)
  | binaryExpr (sp : Span) (op : SyntaxKind) (lhs : Node) (rhs : Node)
  | prefixUnaryExpr (sp : Span) (op : SyntaxKind) (operand : Node)
  | postfixUnaryExpr (sp : Span) (op : SyntaxKind) (operand : Node)
  | deleteExpr (sp : Span) (expr : Node)
  | callExpr (sp : Span) (callee : Node) (args : NodeList)
  | importKeywordExpr (sp : Span)
  | metaProperty (sp : Span) (keywordToken : SyntaxKind)
  | propertyAccessExpr (sp : Span) (obj : Node) (name : String)
  | elementAccessExpr (sp : Span) (obj : Node) (index : Node)
  | identifier (sp : Span) (text : String)
  | stringLit (sp : Span) (value : String)
  | otherNode (sp : Span) (children : NodeList)

/-- A list of AST nodes (child lists, statement lists, argument lists). -/
inductive NodeList where
  | nil
  | cons (head : Node) (tail : NodeList)
end

deriving instance DecidableEq for Node, NodeList

/-- The span of a node (its `getStart`/`getWidth` data). -/
def Node.span : Node → Span
  | .importDecl sp _ => sp
  | .importEqualsDecl sp => sp
  | .exportDecl sp => sp
  | .exportAssignment sp _ => sp
  | .typeAliasDecl sp => sp
  | .interfaceDecl sp => sp
  | .variableStatement sp _ _ => sp
  | .functionDecl sp _ => sp
  | .classDecl sp _ => sp
  | .enumDecl sp _ => sp
  | .moduleDecl sp _ => sp
  | .expressionStatement sp _ => sp
  | .binaryExpr sp _ _ _ => sp
  | .prefixUnaryExpr sp _ _ => sp
  | .postfixUnaryExpr sp _ _ => sp
  | .deleteExpr sp _ => sp
  | .callExpr sp _ _ => sp
  | .importKeywordExpr sp => sp
  | .metaProperty sp _ => sp
  | .propertyAccessExpr sp _ _ => sp
  | .elementAccessExpr sp _ _ => sp
  | .identifier sp _ => sp
  | .stringLit sp _ => sp
  | .otherNode sp _ => sp

/-- List append on `NodeList`. -/
def NodeList.append : NodeList → NodeList → NodeList
  | .nil, l => l
  | .cons n t, l => .cons n (t.append l)

/-- A parsed source file (`ts.SourceFile`): name, declaration-file flag,
top-level statements and its own span. -/
structure SourceFile where
  fileName : String
  isDeclarationFile : Bool
  statements : NodeList
  sp : Span
deriving DecidableEq

/-- The node a violation points at: an inner node or a whole source file
(both are `ts.Node` in the source). -/
inductive VNode where
  | ofNode (n : Node)
  | ofFile (sf : SourceFile)
deriving DecidableEq

/-- `getStart` of a violation node. -/
def VNode.getStart : VNode → Nat
  | .ofNode n => n.span.start
  | .ofFile sf => sf.sp.start

/-- `getWidth` of a violation node. -/
def VNode.getWidth : VNode → Nat
  | .ofNode n => n.span.width
  | .ofFile sf => sf.sp.width

/-- `PropertyViolation` from `types.ts`: rule name, offending node, detail. -/
structure PropertyViolation where
  property : String
  node : VNode
  message : String
deriving DecidableEq

/-- The `{ ok, violations }` result every intrinsic check returns. -/
structure CheckResult where
  ok : Bool
  violations : List PropertyViolation
deriving DecidableEq

/-- Packages a violation list as a check result (`ok := length === 0`). -/
def mkCheckResult (vs : List PropertyViolation) : CheckResult :=
  ⟨vs.length == 0, vs⟩

/-- The fixed `IO_MODULES` set of the shallow I/O check. -/
def ioModules : List String :=
  ["fs", "fs/promises", "node:fs", "node:fs/promises",
   "net", "node:net",
   "http", "node:http",
   "https", "node:https",
   "http2", "node:http2",
   "child_process", "node:child_process",
   "cluster", "node:cluster",
   "dgram", "node:dgram",
   "dns", "node:dns",
   "tls", "node:tls",
   "readline", "node:readline"]

/-- Is this node an identifier literally named `console`? -/
def isConsoleObj : Node → Bool
  | .identifier _ t => t == "console"
  | _ => false

/-- Is this node the `import` keyword used as a call callee? -/
def isImportKeywordNode : Node → Bool
  | .importKeywordExpr _ => true
  | _ => false

/-- Display text of a module-specifier node (`moduleSpecifier.getText()`);
string literals render with their quotes, the only case the modelled
programs use. -/
def specifierText : Node → String
  | .stringLit _ v => "\x27" ++ v ++ "\x27"
  | _ => ""

-- ── Property check implementations ─────────────────────────────────────

/-- Top-level loop of `checkNoImports`: one violation per top-level import
declaration or import-equals declaration, in statement order. -/
def topLevelImportViolations : NodeList → List PropertyViolation
  | .nil => []
  | .cons st rest =>
    (match st with
     | .importDecl sp spec =>
       [⟨"noImports", .ofNode (.importDecl sp spec),
         "Import declaration: " ++ specifierText spec⟩]
     | .importEqualsDecl sp =>
       [⟨"noImports", .ofNode (.importEqualsDecl sp), "Import equals declaration"⟩]
     | _ => []) ++ topLevelImportViolations rest

mutual
/-- `visitDynamicImports` of `checkNoImports`: a violation for every call
expression whose callee is the `import` keyword, anywhere in the tree. -/
def visitDynamicImports : Node → List PropertyViolation
  | .importDecl _ spec => visitDynamicImports spec
  | .importEqualsDecl _ => []
  | .exportDecl _ => []
  | .exportAssignment _ e => visitDynamicImports e
  | .typeAliasDecl _ => []
  | .interfaceDecl _ => []
  | .variableStatement _ _ inits => visitDynamicImportsL inits
  | .functionDecl _ b => visitDynamicImportsL b
  | .classDecl _ b => visitDynamicImportsL b
  | .enumDecl _ is => visitDynamicImportsL is
  | .moduleDecl _ b => visitDynamicImportsL b
  | .expressionStatement _ e => visitDynamicImports e
  | .binaryExpr _ _ l r => visitDynamicImports l ++ visitDynamicImports r
  | .prefixUnaryExpr _ _ e => visitDynamicImports e
  | .postfixUnaryExpr _ _ e => visitDynamicImports e
  | .deleteExpr _ e => visitDynamicImports e
  | .callExpr sp c args =>
    (if isImportKeywordNode c then
       [⟨"noImports", .ofNode (.callExpr sp c args), "Dynamic import() expression"⟩]
     else []) ++ (visitDynamicImports c ++ visitDynamicImportsL args)
  | .importKeywordExpr _ => []
  | .metaProperty _ _ => []
  | .propertyAccessExpr _ obj _ => visitDynamicImports obj
  | .elementAccessExpr _ obj ix => visitDynamicImports obj ++ visitDynamicImports ix
  | .identifier _ _ => []
  | .stringLit _ _ => []
  | .otherNode _ cs => visitDynamicImportsL cs

/-- `visitDynamicImports` over a child list. -/
def visitDynamicImportsL : NodeList → List PropertyViolation
  | .nil => []
  | .cons n rest => visitDynamicImports n ++ visitDynamicImportsL rest
end

/-- `checkNoImports`: top-level import declarations plus dynamic imports. -/
def checkNoImports (sf : SourceFile) : CheckResult :=
  mkCheckResult (topLevelImportViolations sf.statements ++ visitDynamicImportsL sf.statements)

mutual
/-- `visit` of `checkNoConsole`: a violation for every property or element
access rooted at the identifier `console`; does not descend into the
children of a matched access node. -/
def visitConsole : Node → List PropertyViolation
  | .importDecl _ spec => visitConsole spec
  | .importEqualsDecl _ => []
  | .exportDecl _ => []
  | .exportAssignment _ e => visitConsole e
  | .typeAliasDecl _ => []
  | .interfaceDecl _ => []
  | .variableStatement _ _ inits => visitConsoleL inits
  | .functionDecl _ b => visitConsoleL b
  | .classDecl _ b => visitConsoleL b
  | .enumDecl _ is => visitConsoleL is
  | .moduleDecl _ b => visitConsoleL b
  | .expressionStatement _ e => visitConsole e
  | .binaryExpr _ _ l r => visitConsole l ++ visitConsole r
  | .prefixUnaryExpr _ _ e => visitConsole e
  | .postfixUnaryExpr _ _ e => visitConsole e
  | .deleteExpr _ e => visitConsole e
  | .callExpr _ c args => visitConsole c ++ visitConsoleL args
  | .importKeywordExpr _ => []
  | .metaProperty _ _ => []
  | .propertyAccessExpr sp obj nm =>
    if isConsoleObj obj then
      [⟨"noConsole", .ofNode (.propertyAccessExpr sp obj nm), "console." ++ nm⟩]
    else visitConsole obj
  | .elementAccessExpr sp obj ix =>
    if isConsoleObj obj then
      [⟨"noConsole", .ofNode (.elementAccessExpr sp obj ix), "console[...] access"⟩]
    else visitConsole obj ++ visitConsole ix
  | .identifier _ _ => []
  | .stringLit _ _ => []
  | .otherNode _ cs => visitConsoleL cs

/-- `checkNoConsole`'s visitor over a child list. -/
def visitConsoleL : NodeList → List PropertyViolation
  | .nil => []
  | .cons n rest => visitConsole n ++ visitConsoleL rest
end

/-- `checkNoConsole`: any `console.*` or `console[...]` access in the file. -/
def checkNoConsole (sf : SourceFile) : CheckResult :=
  mkCheckResult (visitConsoleL sf.statements)

/-- Top-level loop of `checkImmutable`: one violation per non-const
top-level variable statement. -/
def immutableViolations : NodeList → List PropertyViolation
  | .nil => []
  | .cons st rest =>
    (match st with
     | .variableStatement sp isConst inits =>
       if isConst then []
       else [⟨"immutable", .ofNode (.variableStatement sp isConst inits),
              "Mutable binding (let/var) at module scope"⟩]
     | _ => []) ++ immutableViolations rest

/-- `checkImmutable`: no `let`/`var` declarations at module scope. -/
def checkImmutable (sf : SourceFile) : CheckResult :=
  mkCheckResult (immutableViolations sf.statements)

mutual
/-- `visit` of `checkStatic`: dynamic `import()` calls and meta-properties
whose keyword token is `import`, anywhere in the tree. -/
def visitStatic : Node → List PropertyViolation
  | .importDecl _ spec => visitStatic spec
  | .importEqualsDecl _ => []
  | .exportDecl _ => []
  | .exportAssignment _ e => visitStatic e
  | .typeAliasDecl _ => []
  | .interfaceDecl _ => []
  | .variableStatement _ _ inits => visitStaticL inits
  | .functionDecl _ b => visitStaticL b
  | .classDecl _ b => visitStaticL b
  | .enumDecl _ is => visitStaticL is
  | .moduleDecl _ b => visitStaticL b
  | .expressionStatement _ e => visitStatic e
  | .binaryExpr _ _ l r => visitStatic l ++ visitStatic r
  | .prefixUnaryExpr _ _ e => visitStatic e
  | .postfixUnaryExpr _ _ e => visitStatic e
  | .deleteExpr _ e => visitStatic e
  | .callExpr sp c args =>
    (if isImportKeywordNode c then
       [⟨"static", .ofNode (.callExpr sp c args), "Dynamic import() expression"⟩]
     else []) ++ (visitStatic c ++ visitStaticL args)
  | .importKeywordExpr _ => []
  | .metaProperty sp kw =>
    if kw = .importKeyword then
      [⟨"static", .ofNode (.metaProperty sp kw), "import.meta reference"⟩]
    else []
  | .propertyAccessExpr _ obj _ => visitStatic obj
  | .elementAccessExpr _ obj ix => visitStatic obj ++ visitStatic ix
  | .identifier _ _ => []
  | .stringLit _ _ => []
  | .otherNode _ cs => visitStaticL cs

/-- `checkStatic`'s visitor over a child list. -/
def visitStaticL : NodeList → List PropertyViolation
  | .nil => []
  | .cons n rest => visitStatic n ++ visitStaticL rest
end

/-- `checkStatic`: no dynamic imports or `import.meta` references. -/
def checkStatic (sf : SourceFile) : CheckResult :=
  mkCheckResult (visitStaticL sf.statements)

/-- Top-level loop of `checkNoSideEffects`: any top-level statement outside
the allow-list (imports, exports, type aliases, interfaces, variable
statements, function/class/enum/module declarations) is a violation. -/
def sideEffectViolations : NodeList → List PropertyViolation
  | .nil => []
  | .cons st rest =>
    (match st with
     | .importDecl _ _ => []
     | .exportDecl _ => []
     | .exportAssignment _ _ => []
     | .typeAliasDecl _ => []
     | .interfaceDecl _ => []
     | .variableStatement _ _ _ => []
     | .functionDecl _ _ => []
     | .classDecl _ _ => []
     | .enumDecl _ _ => []
     | .moduleDecl _ _ => []
     | st' => [⟨"noSideEffects", .ofNode st', "Top-level side effect statement"⟩])
    ++ sideEffectViolations rest

/-- `checkNoSideEffects`: only declarations and imports at module top
level. -/
def checkNoSideEffects (sf : SourceFile) : CheckResult :=
  mkCheckResult (sideEffectViolations sf.statements)

mutual
/-- `visit` of `checkNoMutation`: assignment-operator binary expressions,
prefix/postfix `++`/`--`, and `delete` expressions, anywhere in the tree. -/
def visitMutation : Node → List PropertyViolation
  | .importDecl _ spec => visitMutation spec
  | .importEqualsDecl _ => []
  | .exportDecl _ => []
  | .exportAssignment _ e => visitMutation e
  | .typeAliasDecl _ => []
  | .interfaceDecl _ => []
  | .variableStatement _ _ inits => visitMutationL inits
  | .functionDecl _ b => visitMutationL b
  | .classDecl _ b => visitMutationL b
  | .enumDecl _ is => visitMutationL is
  | .moduleDecl _ b => visitMutationL b
  | .expressionStatement _ e => visitMutation e
  | .binaryExpr sp op l r =>
    (if isAssignmentOperator op then
       [⟨"noMutation", .ofNode (.binaryExpr sp op l r), "Assignment: " ++ opTokenText op⟩]
     else []) ++ (visitMutation l ++ visitMutation r)
  | .prefixUnaryExpr sp op e =>
    (if op = .plusPlusToken || op = .minusMinusToken then
       [⟨"noMutation", .ofNode (.prefixUnaryExpr sp op e), "Prefix increment/decrement"⟩]
     else []) ++ visitMutation e
  | .postfixUnaryExpr sp op e =>
    (if op = .plusPlusToken || op = .minusMinusToken then
       [⟨"noMutation", .ofNode (.postfixUnaryExpr sp op e), "Postfix increment/decrement"⟩]
     else []) ++ visitMutation e
  | .deleteExpr sp e =>
    ⟨"noMutation", .ofNode (.deleteExpr sp e), "delete expression"⟩ :: visitMutation e
  | .callExpr _ c args => visitMutation c ++ visitMutationL args
  | .importKeywordExpr _ => []
  | .metaProperty _ _ => []
  | .propertyAccessExpr _ obj _ => visitMutation obj
  | .elementAccessExpr _ obj ix => visitMutation obj ++ visitMutation ix
  | .identifier _ _ => []
  | .stringLit _ _ => []
  | .otherNode _ cs => visitMutationL cs

/-- `checkNoMutation`'s visitor over a child list. -/
def visitMutationL : NodeList → List PropertyViolation
  | .nil => []
  | .cons n rest => visitMutation n ++ visitMutationL rest
end

/-- `checkNoMutation`: no assignments, increments/decrements or deletes. -/
def checkNoMutation (sf : SourceFile) : CheckResult :=
  mkCheckResult (visitMutationL sf.statements)

/-- Top-level loop of `checkNoIo`: static imports of known I/O modules. -/
def topLevelIoViolations : NodeList → List PropertyViolation
  | .nil => []
  | .cons st rest =>
    (match st with
     | .importDecl sp (.stringLit sp2 s) =>
       if ioModules.contains s then
         [⟨"noIO", .ofNode (.importDecl sp (.stringLit sp2 s)),
           "Import of IO module: \x27" ++ s ++ "\x27"⟩]
       else []
     | _ => []) ++ topLevelIoViolations rest

/-- Is this call a dynamic import whose first argument is the given string
literal?  (`arguments.length > 0 && isStringLiteral(arguments[0])`). -/
def dynamicImportArg : Node → NodeList → Option String
  | c, .cons (.stringLit _ s) _ => if isImportKeywordNode c then some s else none
  | _, _ => none

mutual
/-- Dynamic-import part of `checkNoIo`: dynamic imports whose string-literal
specifier is a known I/O module. -/
def visitIoDynamic : Node → List PropertyViolation
  | .importDecl _ spec => visitIoDynamic spec
  | .importEqualsDecl _ => []
  | .exportDecl _ => []
  | .exportAssignment _ e => visitIoDynamic e
  | .typeAliasDecl _ => []
  | .interfaceDecl _ => []
  | .variableStatement _ _ inits => visitIoDynamicL inits
  | .functionDecl _ b => visitIoDynamicL b
  | .classDecl _ b => visitIoDynamicL b
  | .enumDecl _ is => visitIoDynamicL is
  | .moduleDecl _ b => visitIoDynamicL b
  | .expressionStatement _ e => visitIoDynamic e
  | .binaryExpr _ _ l r => visitIoDynamic l ++ visitIoDynamic r
  | .prefixUnaryExpr _ _ e => visitIoDynamic e
  | .postfixUnaryExpr _ _ e => visitIoDynamic e
  | .deleteExpr _ e => visitIoDynamic e
  | .callExpr sp c args =>
    (match dynamicImportArg c args with
     | some s =>
       if ioModules.contains s then
         [⟨"noIO", .ofNode (.callExpr sp c args),
           "Dynamic import of IO module: \x27" ++ s ++ "\x27"⟩]
       else []
     | none => []) ++ (visitIoDynamic c ++ visitIoDynamicL args)
  | .importKeywordExpr _ => []
  | .metaProperty _ _ => []
  | .propertyAccessExpr _ obj _ => visitIoDynamic obj
  | .elementAccessExpr _ obj ix => visitIoDynamic obj ++ visitIoDynamic ix
  | .identifier _ _ => []
  | .stringLit _ _ => []
  | .otherNode _ cs => visitIoDynamicL cs

/-- `checkNoIo`'s dynamic-import visitor over a child list. -/
def visitIoDynamicL : NodeList → List PropertyViolation
  | .nil => []
  | .cons n rest => visitIoDynamic n ++ visitIoDynamicL rest
end

/-- `checkNoIO` from the source (renamed `checkNoIo` here): imports of the
fixed I/O module set, static or dynamic. -/
def checkNoIo (sf : SourceFile) : CheckResult :=
  mkCheckResult (topLevelIoViolations sf.statements ++ visitIoDynamicL sf.statements)

/-- `checkPure`: union of `checkNoIo`, `checkNoMutation` and
`checkNoSideEffects`, re-labeled under `pure`. -/
def checkPure (sf : SourceFile) : CheckResult :=
  let ioResult := checkNoIo sf
  let mutResult := checkNoMutation sf
  let seResult := checkNoSideEffects sf
  mkCheckResult
    ((ioResult.violations.map (fun v => { v with property := "pure" })) ++
     (mutResult.violations.map (fun v => { v with property := "pure" })) ++
     (seResult.violations.map (fun v => { v with property := "pure" })))

-- ── Property check registry and code/message tables ─────────────────────

/-- The `intrinsicChecks` registry: rule name → check function.  Names not
in the registry resolve to `none` (the checker skips them). -/
def intrinsicChecks : String → Option (SourceFile → CheckResult)
  | "noImports" => some checkNoImports
  | "noConsole" => some checkNoConsole
  | "immutable" => some checkImmutable
  | "static" => some checkStatic
  | "noSideEffects" => some checkNoSideEffects
  | "noMutation" => some checkNoMutation
  | "noIO" => some checkNoIo
  | "pure" => some checkPure
  | _ => none

/-- The fixed `errorCodeMap` record: rule name → numeric diagnostic code. -/
def errorCodeMap : List (String × Nat) :=
  [("noImports", 70008),
   ("noConsole", 70009),
   ("immutable", 70010),
   ("static", 70011),
   ("noSideEffects", 70012),
   ("noMutation", 70013),
   ("noIO", 70007),
   ("pure", 70003),
   ("maxFanOut", 70014)]

/-- The fixed `messageMap` record: rule name → template message. -/
def messageMap : List (String × String) :=
  [("noImports", "Value has import declarations"),
   ("noConsole", "Value uses console"),
   ("immutable", "Value has mutable bindings at module scope"),
   ("static", "Value uses dynamic imports"),
   ("noSideEffects", "Value has top-level side effects"),
   ("noMutation", "Value contains mutations"),
   ("noIO", "Value performs IO"),
   ("pure", "Value is not pure"),
   ("maxFanOut", "Value exceeds maximum fan-out")]

/-- `ts.DiagnosticCategory`. -/
inductive DiagnosticCategory where
  | warning
  | error
  | suggestion
  | message
deriving DecidableEq

/-- `KSDiagnostic`: the diagnostic record the checker emits. -/
structure KSDiagnostic where
  file : SourceFile
  start : Nat
  length : Nat
  messageText : String
  category : DiagnosticCategory
  code : Nat
  property : String
deriving DecidableEq

/-- `createDiagnostic`: code and template from the fixed tables (with the
`70000` / generic-message fallbacks), the first violation's detail appended
when present, anchored at the violation node or else the whole file. -/
def createDiagnostic (property : String) (sourceFile : SourceFile)
    (violation : Option PropertyViolation) : KSDiagnostic :=
  let code := (errorCodeMap.lookup property).getD 70000
  let base := (messageMap.lookup property).getD
    ("Property \x27" ++ property ++ "\x27 violated")
  let message := match violation with
    | some v => base ++ ": " ++ v.message
    | none => base
  let errorNode : VNode := match violation with
    | some v => v.node
    | none => .ofFile sourceFile
  ⟨sourceFile, errorNode.getStart, errorNode.getWidth, message, .error, code, property⟩

-- ── maxFanOut check ─────────────────────────────────────────────────────

/-- `Set.add` of the import-specifier set: append if not yet present. -/
def insertSpec (acc : List String) (s : String) : List String :=
  if acc.contains s then acc else acc ++ [s]

/-- Static part of the specifier collection: top-level import declarations
with a string-literal module specifier, in statement order. -/
def staticImportSpecs : NodeList → List String
  | .nil => []
  | .cons st rest =>
    (match st with
     | .importDecl _ (.stringLit _ s) => [s]
     | _ => []) ++ staticImportSpecs rest

mutual
/-- Dynamic part of the specifier collection: string-literal arguments of
dynamic `import()` calls, in traversal order. -/
def dynamicImportSpecs : Node → List String
  | .importDecl _ spec => dynamicImportSpecs spec
  | .importEqualsDecl _ => []
  | .exportDecl _ => []
  | .exportAssignment _ e => dynamicImportSpecs e
  | .typeAliasDecl _ => []
  | .interfaceDecl _ => []
  | .variableStatement _ _ inits => dynamicImportSpecsL inits
  | .functionDecl _ b => dynamicImportSpecsL b
  | .classDecl _ b => dynamicImportSpecsL b
  | .enumDecl _ is => dynamicImportSpecsL is
  | .moduleDecl _ b => dynamicImportSpecsL b
  | .expressionStatement _ e => dynamicImportSpecs e
  | .binaryExpr _ _ l r => dynamicImportSpecs l ++ dynamicImportSpecs r
  | .prefixUnaryExpr _ _ e => dynamicImportSpecs e
  | .postfixUnaryExpr _ _ e => dynamicImportSpecs e
  | .deleteExpr _ e => dynamicImportSpecs e
  | .callExpr _ c args =>
    (match dynamicImportArg c args with
     | some s => [s]
     | none => []) ++ (dynamicImportSpecs c ++ dynamicImportSpecsL args)
  | .importKeywordExpr _ => []
  | .metaProperty _ _ => []
  | .propertyAccessExpr _ obj _ => dynamicImportSpecs obj
  | .elementAccessExpr _ obj ix => dynamicImportSpecs obj ++ dynamicImportSpecs ix
  | .identifier _ _ => []
  | .stringLit _ _ => []
  | .otherNode _ cs => dynamicImportSpecsL cs

/-- The dynamic specifier collection over a child list. -/
def dynamicImportSpecsL : NodeList → List String
  | .nil => []
  | .cons n rest => dynamicImportSpecs n ++ dynamicImportSpecsL rest
end

/-- The distinct import specifiers of a file, as built by `checkMaxFanOut`'s
`Set`: statics first, then dynamics, deduplicated in insertion order. -/
def importSpecifiersOf (sf : SourceFile) : List String :=
  (staticImportSpecs sf.statements ++ dynamicImportSpecsL sf.statements).foldl insertSpec []

/-- The `{ ok, actual, violations }` result of `checkMaxFanOut`. -/
structure FanOutResult where
  ok : Bool
  actual : Nat
  violations : List PropertyViolation
deriving DecidableEq

/-- `checkMaxFanOut`: count distinct imported specifiers (static plus
dynamic); a single violation when the count exceeds the declared maximum. -/
def checkMaxFanOut (sf : SourceFile) (maxAllowed : Int) : FanOutResult :=
  let actual := (importSpecifiersOf sf).length
  let ok := decide ((actual : Int) ≤ maxAllowed)
  let violations : List PropertyViolation :=
    if ok then []
    else [⟨"maxFanOut", .ofFile sf,
           toString actual ++ " dependencies, max is " ++ toString maxAllowed⟩]
  ⟨ok, actual, violations⟩

-- ── Symbols, resolution, and the checker ────────────────────────────────

/-- A declared rule value (`RuleSet` entry): `true`, a number, a string, a
list of ordered pairs, or a list of member names. -/
inductive RuleValue where
  | trueVal
  | falseVal
  | numVal (n : Int)
  | strVal (s : String)
  | pairsVal (ps : List (String × String))
  | namesVal (ns : List String)
deriving DecidableEq

/-- `PropertySpec`: the declared rules of a symbol, as the insertion-ordered
entry list `Object.entries` iterates. -/
abbrev PropertySpec : Type := List (String × RuleValue)

/-- `valueKind` of a bound symbol (the binder produces exactly these). -/
inductive ValueKind where
  | file
  | directory
  | composite
deriving DecidableEq

mutual
/-- `KindSymbol`: numeric stable id (the counter behind the `sym-N` string),
name, declared rules, optional path (leaves), value kind, and members. -/
inductive KindSymbol where
  | mk (id : Nat) (name : String) (declaredProperties : PropertySpec)
       (path : Option String) (valueKind : ValueKind) (members : Members)

/-- The optional `members` map of a symbol (`undefined` on leaves). -/
inductive Members where
  | leafNone
  | table (ms : MemberList)

/-- An insertion-ordered member map: member name → member symbol. -/
inductive MemberList where
  | nil
  | cons (name : String) (sym : KindSymbol) (rest : MemberList)
end

deriving instance DecidableEq for KindSymbol, Members, MemberList

/-- The id of a symbol. -/
@[simp] def KindSymbol.id : KindSymbol → Nat
  | .mk i _ _ _ _ _ => i

/-- The name of a symbol. -/
@[simp] def KindSymbol.name : KindSymbol → String
  | .mk _ n _ _ _ _ => n

/-- The declared rules of a symbol. -/
@[simp] def KindSymbol.declaredProperties : KindSymbol → PropertySpec
  | .mk _ _ p _ _ _ => p

/-- The path of a symbol (leaves only). -/
@[simp] def KindSymbol.path : KindSymbol → Option String
  | .mk _ _ _ p _ _ => p

/-- The value kind of a symbol. -/
@[simp] def KindSymbol.valueKind : KindSymbol → ValueKind
  | .mk _ _ _ _ v _ => v

/-- The members of a symbol. -/
@[simp] def KindSymbol.members : KindSymbol → Members
  | .mk _ _ _ _ _ m => m

/-- A member map as a plain association list, in insertion order. -/
def MemberList.toList : MemberList → List (String × KindSymbol)
  | .nil => []
  | .cons n s rest => (n, s) :: rest.toList

/-- The program as the checker consumes it: the artifact list that
`getSourceFiles()` supplies. -/
structure TSProgram where
  sourceFiles : List SourceFile
deriving DecidableEq

/-- `a.startsWith(b)` on character lists. -/
def startsWithSeq : List Char → List Char → Bool
  | [], _ => true
  | _ :: _, [] => false
  | a :: as, b :: bs => a == b && startsWithSeq as bs

/-- `hay.includes(needle)` of JavaScript strings, on character lists. -/
def containsSeq : List Char → List Char → Bool
  | hay, needle =>
    startsWithSeq needle hay ||
      (match hay with
       | [] => false
       | _ :: t => containsSeq t needle)

/-- `replace(/\\/g, '/')`: normalize path separators to forward slashes. -/
def normSlashes (l : List Char) : List Char :=
  l.map (fun c => if c = '\\' then '/' else c)

/-- `replace(/^\.\//, '')`: strip one leading `./`. -/
def stripDotSlash : List Char → List Char
  | '.' :: '/' :: rest => rest
  | l => l

/-- The normalized suffix a target path is matched by: leading `./`
stripped, then separators normalized. -/
def normalizeSuffix (p : String) : List Char :=
  normSlashes (stripDotSlash p.data)

/--
`resolveValueNodes`: the artifacts a symbol governs.  File targets match
every non-declaration artifact whose normalized path contains the
normalized target path as a substring; directory targets require the
segment-bounded substring `/<target>/`; composites resolve to nothing.
A missing (or empty, by JavaScript falsiness) path resolves to nothing.
-/
def resolveValueNodes (sym : KindSymbol) (tsProgram : TSProgram) : List SourceFile :=
  match sym.valueKind with
  | .file =>
    match sym.path with
    | none => []
    | some p =>
      if p = "" then []
      else
        let fileSuffix := normalizeSuffix p
        tsProgram.sourceFiles.filter
          (fun sf => !sf.isDeclarationFile &&
            containsSeq (normSlashes sf.fileName.data) fileSuffix)
  | .directory =>
    match sym.path with
    | none => []
    | some p =>
      if p = "" then []
      else
        let dirSuffix := normalizeSuffix p
        tsProgram.sourceFiles.filter
          (fun sf => !sf.isDeclarationFile &&
            containsSeq (normSlashes sf.fileName.data) ('/' :: (dirSuffix ++ ['/'])))
  | .composite => []

/-- One step of the boolean-rule loop of `checkSymbol`: for every declared
entry whose value is `true` and whose name is in the registry, run the
check; on failure emit one diagnostic built from the first violation. -/
def booleanRuleDiagnostics : PropertySpec → SourceFile → List KSDiagnostic
  | [], _ => []
  | (prop, v) :: rest, sf =>
    (match v with
     | .trueVal =>
       match intrinsicChecks prop with
       | some chk =>
         let result := chk sf
         if result.ok then [] else [createDiagnostic prop sf result.violations.head?]
       | none => []
     | _ => []) ++ booleanRuleDiagnostics rest sf

/-- The numeric `maxFanOut` step of `checkSymbol` (run when the rule is
declared with a numeric value, the only shape the typed config produces). -/
def maxFanOutDiagnostics (props : PropertySpec) (sf : SourceFile) : List KSDiagnostic :=
  match props.lookup "maxFanOut" with
  | some (.numVal n) =>
    let result := checkMaxFanOut sf n
    if result.ok then [] else [createDiagnostic "maxFanOut" sf result.violations.head?]
  | _ => []

/-- Per-resolved-artifact body of `checkSymbol`'s node loop. -/
def checkDeclared (props : PropertySpec) (sf : SourceFile) : List KSDiagnostic :=
  booleanRuleDiagnostics props sf ++ maxFanOutDiagnostics props sf

/-- `checkSymbol`'s loop over the resolved artifacts. -/
def checkNodes (props : PropertySpec) : List SourceFile → List KSDiagnostic
  | [] => []
  | sf :: rest => checkDeclared props sf ++ checkNodes props rest

mutual
/-- `checkSymbol`: composites recurse into each member; everything else
resolves to artifacts and runs the declared intrinsic and `maxFanOut`
checks on each. -/
def checkSymbol (tsProgram : TSProgram) : KindSymbol → List KSDiagnostic
  | .mk i nm props path vk members =>
    match vk, members with
    | .composite, .table ms => checkSymbolMembers tsProgram ms
    | vk', members' =>
      checkNodes props (resolveValueNodes (.mk i nm props path vk' members') tsProgram)

/-- The member recursion of `checkSymbol`, in map insertion order. -/
def checkSymbolMembers (tsProgram : TSProgram) : MemberList → List KSDiagnostic
  | .nil => []
  | .cons _ m rest => checkSymbol tsProgram m ++ checkSymbolMembers tsProgram rest
end

/-- The full check of all targets, in target order (the list the first
`checkProgram` call computes and caches). -/
def checkProgramPure (targets : List KindSymbol) (tsProgram : TSProgram) : List KSDiagnostic :=
  targets.flatMap (fun t => checkSymbol tsProgram t)

/-- A checker session: the closure state of `createKSChecker`, with the
memoized full-check result (`cached`, initially `undefined`). -/
structure KSCheckerSession where
  targets : List KindSymbol
  tsProgram : TSProgram
  cached : Option (List KSDiagnostic)
deriving DecidableEq

/-- `createKSChecker`: a fresh session with an empty cache. -/
def createKSChecker (tsProgram : TSProgram) (targets : List KindSymbol) : KSCheckerSession :=
  ⟨targets, tsProgram, none⟩

/-- `checkProgram`: return the cached full result, computing and caching it
on first call. -/
def checkProgram (s : KSCheckerSession) : List KSDiagnostic × KSCheckerSession :=
  match s.cached with
  | some ds => (ds, s)
  | none =>
    let ds := checkProgramPure s.targets s.tsProgram
    (ds, { s with cached := some ds })

/-- `checkSourceFile`: empty for declaration files, otherwise the cached
full result filtered to diagnostics whose file name matches. -/
def checkSourceFile (sf : SourceFile) (s : KSCheckerSession) :
    List KSDiagnostic × KSCheckerSession :=
  if sf.isDeclarationFile then ([], s)
  else
    let r := checkProgram s
    (r.1.filter (fun d => d.file.fileName == sf.fileName), r.2)

-- ── The binder ──────────────────────────────────────────────────────────

/-- A `TargetEntry` of the config: a path with optional rules. -/
structure TargetEntry where
  path : String
  rules : Option PropertySpec
deriving DecidableEq

/-- A config entry: a simple file/directory target or a composite with
named members (`isCompositeEntry` distinguishes them by the `members`
key). -/
inductive ConfigEntry where
  | simple (entry : TargetEntry)
  | compositeEntry (members : List (String × TargetEntry)) (rules : Option PropertySpec)
deriving DecidableEq

/-- `KindScriptConfig`: named entries in object-insertion order. -/
abbrev KindScriptConfig : Type := List (String × ConfigEntry)

/-- `\w`: an ASCII word character. -/
def isWordChar (c : Char) : Bool :=
  c.isAlphanum || c == '_'

/-- After the trailing word-character run (reversed input): the next
character must be a dot. -/
def extAfterWord : List Char → Bool
  | [] => false
  | c :: rest => if isWordChar c then extAfterWord rest else c == '.'

/-- The reversed path must start with at least one word character followed
eventually by a dot (the regex `\.\w+$`). -/
def extCheck : List Char → Bool
  | [] => false
  | c :: rest => if isWordChar c then extAfterWord rest else false

/-- Does the path end in a final path-segment extension (`/\.\w+$/`)? -/
def endsWithExt (p : String) : Bool :=
  extCheck p.data.reverse

/-- `detectValueKind`: paths with a trailing extension are files, everything
else a directory. -/
def detectValueKind (path : String) : ValueKind :=
  if endsWithExt path then .file else .directory

/-- `BinderResult`: all symbols (members included) and the top-level
targets. -/
structure BinderResult where
  symbols : List KindSymbol
  targets : List KindSymbol
deriving DecidableEq

/-- Member binding of a composite entry: each member becomes a leaf symbol
with the next id, pushed to `symbols` and recorded in the member map, in
entry order.  Returns (pushed symbols, member map, next free id). -/
def bindMembers (startId : Nat) :
    List (String × TargetEntry) → List KindSymbol × MemberList × Nat
  | [] => ([], .nil, startId)
  | (memberName, member) :: rest =>
    let memberSym : KindSymbol :=
      .mk startId memberName (member.rules.getD []) (some member.path)
        (detectValueKind member.path) .leafNone
    let r := bindMembers (startId + 1) rest
    (memberSym :: r.1, .cons memberName memberSym r.2.1, r.2.2)

/-- The entry loop of `ksBind`, threading the id counter: composites bind
their members first, then themselves (kind `composite`, no path); simple
entries become leaf symbols.  Every symbol is pushed to `symbols` in
creation order; only top-level symbols are pushed to `targets`. -/
def bindEntries (startId : Nat) :
    KindScriptConfig → List KindSymbol × List KindSymbol
  | [] => ([], [])
  | (name, .simple entry) :: rest =>
    let sym : KindSymbol :=
      .mk startId name (entry.rules.getD []) (some entry.path)
        (detectValueKind entry.path) .leafNone
    let r := bindEntries (startId + 1) rest
    (sym :: r.1, sym :: r.2)
  | (name, .compositeEntry ms rules) :: rest =>
    let m := bindMembers startId ms
    let sym : KindSymbol := .mk m.2.2 name (rules.getD []) none .composite (.table m.2.1)
    let r := bindEntries (m.2.2 + 1) rest
    (m.1 ++ sym :: r.1, sym :: r.2)

/-- `ksBind`: one deterministic pass over the config, ids starting at 0. -/
def ksBind (config : KindScriptConfig) : BinderResult :=
  ⟨(bindEntries 0 config).1, (bindEntries 0 config).2⟩

/-- What binding a leaf entry produces: the entry's rules (empty when
absent), its path, the detected value kind, and no member map. -/
def boundLeafMatches (e : TargetEntry) (s : KindSymbol) : Prop :=
  s.declaredProperties = e.rules.getD [] ∧ s.path = some e.path ∧
  s.valueKind = detectValueKind e.path ∧ s.members = .leafNone

/-- What binding a config entry produces: simple entries become leaf
symbols; composite entries become `composite`-kind symbols without a path
whose member map binds each member (a leaf with its own id, path and value
kind) before the composite itself (smaller id). -/
def entryMatches : String × ConfigEntry → KindSymbol → Prop
  | (n, .simple e), s => s.name = n ∧ boundLeafMatches e s
  | (n, .compositeEntry ms rules), s =>
    s.name = n ∧ s.declaredProperties = rules.getD [] ∧ s.path = none ∧
    s.valueKind = .composite ∧
    ∃ ml, s.members = .table ml ∧
      ml.toList.map Prod.fst = ms.map Prod.fst ∧
      List.Forall₂
        (fun (me : String × TargetEntry) (q : String × KindSymbol) =>
          q.1 = me.1 ∧ boundLeafMatches me.2 q.2 ∧ q.2.id < s.id)
        ms ml.toList

-- ── Relational engine: noCycles (spec-modelled) ─────────────────────────

/-- Modelled from the spec: the relational/composite engine's `noCycles`
check is not present in the provided source (only its declarations —
`KSErrorCode.NoCycles = 70004` and the `noCycles` rule of `RuleSet` /
`PropertySpec` — appear there).  Per the spec: restrict the import graph
to edges between the listed members.  This adjacency keeps, for each
member, the listed members it has an edge to, in member-list order. -/
def restrictAdjacency (members : List String) (edges : List (String × String))
    (m : String) : List String :=
  members.filter (fun n => decide ((m, n) ∈ edges))

/-- Modelled from the spec: index of the first occurrence of a member on
the active path (`path.indexOf(node)`). -/
def idxOnPath (n : String) : List String → Nat
  | [] => 0
  | x :: rest => if x = n then 0 else idxOnPath n rest + 1

/-- Modelled from the spec: the reported cycle starts from the first
repeated node encountered (`path.slice(path.indexOf(node))`). -/
def cycleFromPath (n : String) (path : List String) : List String :=
  path.drop (idxOnPath n path)

/-- Modelled from the spec: depth-first search over a pending node list,
tracking the active path; a back-edge to a node already on the active path
yields a cycle; already-visited nodes are skipped; otherwise the node's
successors are explored with the node appended to the path.  `rec` is the
one-level-deeper search; found cycles accumulate left to right and the
visited set threads through. -/
def dfsSeq (rec : List String → List String → List String → List (List String) × List String)
    (adj : String → List String) :
    List String → List String → List String → List (List String) × List String
  | [], _, visited => ([], visited)
  | n :: rest, path, visited =>
    let step :=
      if n ∈ path then ([cycleFromPath n path], visited)
      else if n ∈ visited then ([], visited)
      else rec (adj n) (path ++ [n]) (n :: visited)
    let next := dfsSeq rec adj rest path step.2
    (step.1 ++ next.1, next.2)

/-- Modelled from the spec: fuel-indexed unfolding of the depth-first
search; each nesting level consumes one unit, and the fuel used below
(`members.length + 1`) exceeds the longest possible duplicate-free active
path, so it never runs out on the runs the engine performs. -/
def dfsFuel (adj : String → List String) :
    Nat → List String → List String → List String → List (List String) × List String
  | 0, _, _, visited => ([], visited)
  | fuel + 1, seeds, path, visited => dfsSeq (dfsFuel adj fuel) adj seeds path visited

/-- Modelled from the spec: `noCycles([members...])` — run the search from
every listed member in order with a fresh active path and a shared visited
set; return every cycle found. -/
def checkNoCycles (members : List String) (edges : List (String × String)) :
    List (List String) :=
  (dfsFuel (restrictAdjacency members edges) (members.length + 1) members [] []).1

/-- A relational diagnostic as the spec describes it: numeric code, rule
name, message (attributed to the composite). -/
structure RelationalDiagnostic where
  code : Nat
  rule : String
  message : String
deriving DecidableEq

/-- Separator-joined member names of a cycle. -/
def joinCycle : List String → String
  | [] => ""
  | [m] => m
  | m :: rest => m ++ " -> " ++ joinCycle rest

/-- Modelled from the spec: one `70004` diagnostic per cycle found, naming
the full cycle. -/
def noCyclesDiagnostics (members : List String) (edges : List (String × String)) :
    List RelationalDiagnostic :=
  (checkNoCycles members edges).map
    (fun cyc => ⟨70004, "noCycles",
      "Circular dependency: " ++ joinCycle (cyc ++ cyc.take 1)⟩)

-- ── Console-access accounting (for stating C7's file condition) ─────────

mutual
/-- Every console access node in a tree (property or element accesses whose
object is the identifier `console`), in traversal order, descending into
all children — the independent count behind "exactly one `console.log(...)`
call and no other console access". -/
def consoleAccesses : Node → List Node
  | .importDecl _ spec => consoleAccesses spec
  | .importEqualsDecl _ => []
  | .exportDecl _ => []
  | .exportAssignment _ e => consoleAccesses e
  | .typeAliasDecl _ => []
  | .interfaceDecl _ => []
  | .variableStatement _ _ inits => consoleAccessesL inits
  | .functionDecl _ b => consoleAccessesL b
  | .classDecl _ b => consoleAccessesL b
  | .enumDecl _ is => consoleAccessesL is
  | .moduleDecl _ b => consoleAccessesL b
  | .expressionStatement _ e => consoleAccesses e
  | .binaryExpr _ _ l r => consoleAccesses l ++ consoleAccesses r
  | .prefixUnaryExpr _ _ e => consoleAccesses e
  | .postfixUnaryExpr _ _ e => consoleAccesses e
  | .deleteExpr _ e => consoleAccesses e
  | .callExpr _ c args => consoleAccesses c ++ consoleAccessesL args
  | .importKeywordExpr _ => []
  | .metaProperty _ _ => []
  | .propertyAccessExpr sp obj nm =>
    (if isConsoleObj obj then [.propertyAccessExpr sp obj nm] else []) ++
      consoleAccesses obj
  | .elementAccessExpr sp obj ix =>
    (if isConsoleObj obj then [.elementAccessExpr sp obj ix] else []) ++
      (consoleAccesses obj ++ consoleAccesses ix)
  | .identifier _ _ => []
  | .stringLit _ _ => []
  | .otherNode _ cs => consoleAccessesL cs

/-- All console accesses under a node list. -/
def consoleAccessesL : NodeList → List Node
  | .nil => []
  | .cons n rest => consoleAccesses n ++ consoleAccessesL rest
end

/-- The violation `checkNoConsole` emits for a given console access node. -/
def consoleViolation : Node → PropertyViolation
  | .propertyAccessExpr sp obj nm =>
    ⟨"noConsole", .ofNode (.propertyAccessExpr sp obj nm), "console." ++ nm⟩
  | .elementAccessExpr sp obj ix =>
    ⟨"noConsole", .ofNode (.elementAccessExpr sp obj ix), "console[...] access"⟩
  | n => ⟨"noConsole", .ofNode n, ""⟩

/-- The relation `visitConsole`'s output bears to the full console-access
list: agreement on the empty and singleton cases. -/
def ConsoleGood (vs : List PropertyViolation) (accs : List Node) : Prop :=
  (accs = [] → vs = []) ∧ (∀ a, accs = [a] → vs = [consoleViolation a])

-- ── Diagnostic invariant (for C9) ───────────────────────────────────────

/-- The invariant of every emitted diagnostic: severity error, code equal
to the fixed rule-code table's value for its violated rule, code in the
closed range 70001–70015, and the rule recognized by the engine (a
registry name or `maxFanOut`). -/
def diagnosticWellFormed (d : KSDiagnostic) : Prop :=
  d.category = .error ∧
  errorCodeMap.lookup d.property = some d.code ∧
  70001 ≤ d.code ∧ d.code ≤ 70015 ∧
  ((intrinsicChecks d.property).isSome = true ∨ d.property = "maxFanOut")

-- ── Concrete fixtures ───────────────────────────────────────────────────

/-- The statements `let x = 0; x = 1; x++;`. -/
def mutationStmts : NodeList :=
  .cons (.variableStatement ⟨0, 10⟩ false (.cons (.otherNode ⟨8, 1⟩ .nil) .nil))
    (.cons (.expressionStatement ⟨11, 6⟩
        (.binaryExpr ⟨11, 5⟩ .equalsToken (.identifier ⟨11, 1⟩ "x")
          (.otherNode ⟨15, 1⟩ .nil)))
      (.cons (.expressionStatement ⟨18, 4⟩
          (.postfixUnaryExpr ⟨18, 3⟩ .plusPlusToken (.identifier ⟨18, 1⟩ "x")))
        .nil))

/-- A file holding exactly `let x = 0; x = 1; x++;`. -/
def mutationFile : SourceFile := ⟨"f.ts", false, mutationStmts, ⟨0, 23⟩⟩

/-- A file target for `mutationFile` declaring `{noMutation: true}`. -/
def mutationTarget : KindSymbol :=
  .mk 0 "f" [("noMutation", .trueVal)] (some "f.ts") .file .leafNone

/-- The program holding only `mutationFile`. -/
def mutationProgram : TSProgram := ⟨[mutationFile]⟩

/-- A file holding exactly one `console.log("hi");` call. -/
def consoleFile : SourceFile :=
  ⟨"c.ts", false,
    .cons (.expressionStatement ⟨0, 18⟩
      (.callExpr ⟨0, 17⟩
        (.propertyAccessExpr ⟨0, 11⟩ (.identifier ⟨0, 7⟩ "console") "log")
        (.cons (.stringLit ⟨12, 4⟩ "hi") .nil))) .nil,
    ⟨0, 18⟩⟩

/-- A file target for `consoleFile` declaring `{noConsole: true}`. -/
def consoleTarget : KindSymbol :=
  .mk 0 "c" [("noConsole", .trueVal)] (some "c.ts") .file .leafNone

/-- The program holding only `consoleFile`. -/
def consoleProgram : TSProgram := ⟨[consoleFile]⟩

/-- A file importing two distinct modules. -/
def fanOutFileTwo : SourceFile :=
  ⟨"g.ts", false,
    .cons (.importDecl ⟨0, 10⟩ (.stringLit ⟨7, 3⟩ "a"))
      (.cons (.importDecl ⟨11, 10⟩ (.stringLit ⟨18, 3⟩ "b")) .nil),
    ⟨0, 21⟩⟩

/-- A file importing one module. -/
def fanOutFileOne : SourceFile :=
  ⟨"g.ts", false, .cons (.importDecl ⟨0, 10⟩ (.stringLit ⟨7, 3⟩ "a")) .nil, ⟨0, 10⟩⟩

/-- A file target declaring `{maxFanOut: 1}`. -/
def fanOutTarget : KindSymbol :=
  .mk 0 "g" [("maxFanOut", .numVal 1)] (some "g.ts") .file .leafNone

/-- The program holding only `fanOutFileTwo`. -/
def fanOutProgramTwo : TSProgram := ⟨[fanOutFileTwo]⟩

/-- The program holding only `fanOutFileOne`. -/
def fanOutProgramOne : TSProgram := ⟨[fanOutFileOne]⟩

-- ── Theorems ────────────────────────────────────────────────────────────

/-- Claim C10: `checkSourceFile sf` returns the empty list when `sf` is a
declaration file, and otherwise exactly those diagnostics of
`checkProgram()` whose file name equals `sf`'s file name, in the same
order (a filter of the full result). -/
theorem c10_checkSourceFile_filters_checkProgram
    (s : KSCheckerSession) (sf : SourceFile) :
    (checkSourceFile sf s).1 =
      if sf.isDeclarationFile then []
      else (checkProgram s).1.filter (fun d => d.file.fileName == sf.fileName) := by
  by_cases h : sf.isDeclarationFile <;> simp [checkSourceFile, h]

/-- Claim C4: on a fresh session, `checkProgram` computes the full result
once, caches it, and a second call returns the identical list (and the
identical session); per-file queries filter the cached full result. -/
theorem c4_checkProgram_idempotent_and_cached
    (targets : List KindSymbol) (tsProgram : TSProgram) :
    ((checkProgram (checkProgram (createKSChecker tsProgram targets)).2).1 =
        (checkProgram (createKSChecker tsProgram targets)).1) ∧
    ((checkProgram (checkProgram (createKSChecker tsProgram targets)).2).2 =
        (checkProgram (createKSChecker tsProgram targets)).2) ∧
    ((checkProgram (createKSChecker tsProgram targets)).2.cached =
        some (checkProgram (createKSChecker tsProgram targets)).1) ∧
    ((checkProgram (createKSChecker tsProgram targets)).1 =
        checkProgramPure targets tsProgram) ∧
    (∀ sf : SourceFile,
      (checkSourceFile sf (checkProgram (createKSChecker tsProgram targets)).2).1 =
        if sf.isDeclarationFile then []
        else (checkProgram (createKSChecker tsProgram targets)).1.filter
          (fun d => d.file.fileName == sf.fileName)) := by
  refine ⟨rfl, rfl, rfl, rfl, fun sf => ?_⟩
  by_cases h : sf.isDeclarationFile <;>
    simp [checkSourceFile, checkProgram, createKSChecker, h]

/-- Claim C6: a non-composite (leaf) target whose resolved artifact set is
empty contributes zero diagnostics to `check`. -/
theorem c6_empty_resolution_no_diagnostics
    (i : Nat) (nm : String) (props : PropertySpec) (path : Option String)
    (mm : Members) (vk : ValueKind) (tsProgram : TSProgram)
    (hleaf : vk = .file ∨ vk = .directory)
    (hres : resolveValueNodes (.mk i nm props path vk mm) tsProgram = []) :
    checkSymbol tsProgram (.mk i nm props path vk mm) = [] := by
  rcases hleaf with h | h <;> subst h <;>
    simp [checkSymbol, hres, checkNodes]

/-- Witness for C6: a file target whose path is `undefined` resolves to no
artifacts and produces no diagnostics. -/
theorem c6_empty_resolution_no_diagnostics_witness :
    checkSymbol (TSProgram.mk []) (KindSymbol.mk 0 "t" [] none .file .leafNone) = [] :=
  c6_empty_resolution_no_diagnostics 0 "t" [] none .leafNone .file
    (TSProgram.mk []) (Or.inl rfl) rfl

-- ── Binder lemmas ───────────────────────────────────────────────────────

/-- Structure of `bindMembers`: the returned next id, the ids assigned (a
contiguous increasing run), the member map's names and symbols, and the
leaf shape of every member symbol. -/
theorem bindMembers_spec (ms : List (String × TargetEntry)) (k : Nat) :
    (bindMembers k ms).2.2 = k + ms.length ∧
    (bindMembers k ms).1.map KindSymbol.id = List.range' k ms.length ∧
    (bindMembers k ms).2.1.toList.map Prod.fst = ms.map Prod.fst ∧
    (bindMembers k ms).2.1.toList.map Prod.snd = (bindMembers k ms).1 ∧
    List.Forall₂
      (fun (me : String × TargetEntry) (s : KindSymbol) =>
        s.name = me.1 ∧ boundLeafMatches me.2 s) ms (bindMembers k ms).1 := by
  induction ms generalizing k with
  | nil => simp [bindMembers, MemberList.toList]
  | cons hd tl ih =>
    obtain ⟨nm, me⟩ := hd
    obtain ⟨h1, h2, h3, h4, h5⟩ := ih (k + 1)
    refine ⟨?_, ?_, ?_, ?_, ?_⟩
    · simp [bindMembers, h1]; omega
    · simp [bindMembers, h2, List.range'_succ]
    · simp [bindMembers, MemberList.toList, h3]
    · simp [bindMembers, MemberList.toList, h4]
    · exact List.Forall₂.cons ⟨rfl, rfl, rfl, rfl, rfl⟩ h5

/-- The member map of `bindMembers`, entry by entry: names match the config
members in order, every member symbol is a bound leaf, and its id lies in
the contiguous run `[k, k + ms.length)`. -/
theorem bindMembers_table_spec (ms : List (String × TargetEntry)) (k : Nat) :
    List.Forall₂
      (fun (me : String × TargetEntry) (q : String × KindSymbol) =>
        q.1 = me.1 ∧ boundLeafMatches me.2 q.2 ∧ q.2.id < (bindMembers k ms).2.2)
      ms (bindMembers k ms).2.1.toList := by
  induction ms generalizing k with
  | nil => simp [bindMembers, MemberList.toList]
  | cons hd tl ih =>
    obtain ⟨nm, me⟩ := hd
    have hid : (bindMembers (k + 1) tl).2.2 = (k + 1) + tl.length :=
      (bindMembers_spec tl (k + 1)).1
    refine List.Forall₂.cons ⟨rfl, ⟨rfl, rfl, rfl, rfl⟩, ?_⟩ (ih (k + 1))
    show (k : Nat) < (bindMembers (k + 1) tl).2.2
    omega

/-- Every symbol `bindMembers` pushes with a path has the value kind
`detectValueKind` assigns to that path. -/
theorem bindMembers_path_kind (ms : List (String × TargetEntry)) (k : Nat) :
    ∀ s ∈ (bindMembers k ms).1, ∀ p, s.path = some p →
      s.valueKind = detectValueKind p := by
  induction ms generalizing k with
  | nil => simp [bindMembers]
  | cons hd tl ih =>
    obtain ⟨nm, me⟩ := hd
    intro s hs p hp
    rcases (by simpa [bindMembers] using hs) with h | h
    · subst h
      simp at hp
      subst hp
      rfl
    · exact ih (k + 1) s h p hp

/-- Every symbol `bindEntries` pushes with a path has the value kind
`detectValueKind` assigns to that path. -/
theorem bindEntries_path_kind (cfg : KindScriptConfig) (k : Nat) :
    ∀ s ∈ (bindEntries k cfg).1, ∀ p, s.path = some p →
      s.valueKind = detectValueKind p := by
  induction cfg generalizing k with
  | nil => simp [bindEntries]
  | cons hd tl ih =>
    obtain ⟨nm, e⟩ := hd
    intro s hs p hp
    cases e with
    | simple entry =>
      rcases (by simpa [bindEntries] using hs) with h | h
      · subst h
        simp at hp
        subst hp
        rfl
      · exact ih (k + 1) s h p hp
    | compositeEntry ms rules =>
      rcases (by simpa [bindEntries] using hs) with h | h | h
      · exact bindMembers_path_kind ms k s h p hp
      · subst h; simp at hp
      · exact ih ((bindMembers k ms).2.2 + 1) s h p hp

/-- Structure of `bindEntries`: ids are assigned as one contiguous
increasing run in push order; each config entry binds, in order, to the
matching target symbol; the targets are a sublist of the symbols (the
symbols list additionally holds the composite members); and every member
of a composite target is itself in the symbols list. -/
theorem bindEntries_spec (cfg : KindScriptConfig) (k : Nat) :
    ((bindEntries k cfg).1.map KindSymbol.id =
      List.range' k (bindEntries k cfg).1.length) ∧
    List.Forall₂ entryMatches cfg (bindEntries k cfg).2 ∧
    (bindEntries k cfg).2.Sublist (bindEntries k cfg).1 ∧
    (∀ t ∈ (bindEntries k cfg).2, ∀ ml, t.members = .table ml →
      ∀ q ∈ ml.toList, q.2 ∈ (bindEntries k cfg).1) := by
  induction cfg generalizing k with
  | nil => simp [bindEntries]
  | cons hd tl ih =>
    obtain ⟨nm, e⟩ := hd
    cases e with
    | simple entry =>
      obtain ⟨ih1, ih2, ih3, ih4⟩ := ih (k + 1)
      refine ⟨?_, ?_, ?_, ?_⟩
      · simp only [bindEntries, List.map_cons, List.length_cons, List.range'_succ]
        rw [ih1]
        simp
      · exact List.Forall₂.cons ⟨rfl, rfl, rfl, rfl, rfl⟩ ih2
      · exact List.Sublist.cons₂ _ ih3
      · intro t ht ml hml q hq
        simp only [bindEntries, List.mem_cons] at ht
        rcases ht with h | h
        · subst h
          simp at hml
        · have := ih4 t h ml hml q hq
          simp only [bindEntries, List.mem_cons]
          exact Or.inr this
    | compositeEntry ms rules =>
      obtain ⟨m1, m2, m3, m4, m5⟩ := bindMembers_spec ms k
      obtain ⟨ih1, ih2, ih3, ih4⟩ := ih ((bindMembers k ms).2.2 + 1)
      have hmlen : (bindMembers k ms).1.length = ms.length := by
        have := congrArg List.length m2
        simpa using this
      refine ⟨?_, ?_, ?_, ?_⟩
      · simp only [bindEntries, List.map_append, List.map_cons, List.length_append,
          List.length_cons]
        rw [ih1, m2, m1, hmlen]
        simp only [KindSymbol.id]
        rw [← List.range'_succ]
        have happ := List.range'_append k ms.length
          ((bindEntries ((k + ms.length) + 1) tl).1.length + 1) 1
        simp only [one_mul] at happ
        rw [happ]
        congr 1
        omega
      · refine List.Forall₂.cons ?_ ih2
        refine ⟨rfl, rfl, rfl, rfl, (bindMembers k ms).2.1, rfl, m3, ?_⟩
        exact bindMembers_table_spec ms k
      · exact List.Sublist.append (List.nil_sublist _) (List.Sublist.cons₂ _ ih3)
      · intro t ht ml hml q hq
        simp only [bindEntries, List.mem_append, List.mem_cons] at ht ⊢
        rcases (by simpa [bindEntries] using ht : t =
            KindSymbol.mk (bindMembers k ms).2.2 nm (rules.getD []) none .composite
              (.table (bindMembers k ms).2.1) ∨ t ∈ (bindEntries ((bindMembers k ms).2.2 + 1) tl).2)
          with h | h
        · subst h
          simp only [KindSymbol.members, Members.table.injEq] at hml
          subst hml
          left
          have : q.2 ∈ (bindMembers k ms).2.1.toList.map Prod.snd :=
            List.mem_map_of_mem Prod.snd hq
          rw [m4] at this
          exact this
        · right; right
          exact ih4 t h ml hml q hq

/-- Claim C5: `ksBind` is a deterministic single pass — ids are assigned
monotonically in configuration iteration order (the symbols list carries
ids `0, 1, 2, …` in push order); each entry binds to its matching symbol
in order (leaves classified by `detectValueKind`, composites getting kind
`composite`, no path, and a member map whose members are bound — with
their own id, path and value kind — before the composite, hence with
smaller ids); `targets` holds exactly the top-level entries while
`symbols` additionally contains every composite member; and a path is
classified as a file exactly when it ends in a final path-segment
extension. -/
theorem c5_ksBind_single_pass (config : KindScriptConfig) :
    ((ksBind config).symbols.map KindSymbol.id =
      List.range (ksBind config).symbols.length) ∧
    List.Forall₂ entryMatches config (ksBind config).targets ∧
    (ksBind config).targets.Sublist (ksBind config).symbols ∧
    (∀ t ∈ (ksBind config).targets, ∀ ml, t.members = .table ml →
      ∀ q ∈ ml.toList, q.2 ∈ (ksBind config).symbols) ∧
    (∀ p : String, detectValueKind p = .file ↔ endsWithExt p = true) := by
  obtain ⟨h1, h2, h3, h4⟩ := bindEntries_spec config 0
  refine ⟨?_, h2, h3, h4, ?_⟩
  · rw [List.range_eq_range']
    exact h1
  · intro p
    unfold detectValueKind
    by_cases h : endsWithExt p = true <;> simp [h]

/-- `startsWithSeq l l` always holds. -/
theorem startsWithSeq_self (l : List Char) : startsWithSeq l l = true := by
  induction l with
  | nil => rfl
  | cons c t ih => simp [startsWithSeq, ih]

/-- Any character list contains itself as a substring. -/
theorem containsSeq_self (l : List Char) : containsSeq l l = true := by
  cases l <;> simp [containsSeq, startsWithSeq_self]

/-- Claim C3 (amended): if a bound target's normalized path exactly equals
an artifact's normalized path, the path ends in a final path-segment
extension (so the target binds as a file target), and the artifact is not
a declaration file, then resolving that target includes the artifact. -/
theorem c3_exact_path_resolves
    (cfg : KindScriptConfig) (tsProgram : TSProgram) (sf : SourceFile)
    (t : KindSymbol) (p : String)
    (ht : t ∈ (ksBind cfg).symbols)
    (hpath : t.path = some p)
    (hnorm : normalizeSuffix p = normSlashes sf.fileName.data)
    (hext : endsWithExt p = true)
    (hdecl : sf.isDeclarationFile = false)
    (hmem : sf ∈ tsProgram.sourceFiles) :
    sf ∈ resolveValueNodes t tsProgram := by
  have hvk : t.valueKind = detectValueKind p :=
    bindEntries_path_kind cfg 0 t ht p hpath
  have hfile : t.valueKind = .file := by
    rw [hvk, detectValueKind, if_pos hext]
  have hne : p ≠ "" := by
    intro h
    rw [h] at hext
    simp [endsWithExt, extCheck] at hext
  have hres : resolveValueNodes t tsProgram =
      tsProgram.sourceFiles.filter
        (fun sf => !sf.isDeclarationFile &&
          containsSeq (normSlashes sf.fileName.data) (normalizeSuffix p)) := by
    unfold resolveValueNodes
    rw [hfile, hpath]
    simp [hne]
  rw [hres]
  refine List.mem_filter.mpr ⟨hmem, ?_⟩
  simp [hdecl, ← hnorm, containsSeq_self]

/-- Witness for C3: an exactly-matching non-declaration artifact is
resolved. -/
theorem c3_exact_path_resolves_witness :
    SourceFile.mk "src/a.ts" false .nil ⟨0, 0⟩ ∈
      resolveValueNodes
        (KindSymbol.mk 0 "t" [] (some "src/a.ts") .file .leafNone)
        (TSProgram.mk [SourceFile.mk "src/a.ts" false .nil ⟨0, 0⟩]) :=
  c3_exact_path_resolves [("t", .simple ⟨"src/a.ts", none⟩)]
    (TSProgram.mk [SourceFile.mk "src/a.ts" false .nil ⟨0, 0⟩])
    (SourceFile.mk "src/a.ts" false .nil ⟨0, 0⟩)
    (KindSymbol.mk 0 "t" [] (some "src/a.ts") .file .leafNone)
    "src/a.ts" (by decide) rfl rfl (by decide) rfl (by decide)

/-- Counterexample for C3 as stated: the artifact `src/a.ts` is a
declaration file; its path exactly equals the bound target's (normalized)
path, yet resolution excludes it, so the resolved set does not include
the artifact. -/
theorem c3_counterexample :
    ((ksBind [("t", ConfigEntry.simple ⟨"src/a.ts", none⟩)]).symbols =
      [KindSymbol.mk 0 "t" [] (some "src/a.ts") .file .leafNone]) ∧
    (normalizeSuffix "src/a.ts" =
      normSlashes (SourceFile.mk "src/a.ts" true .nil ⟨0, 0⟩).fileName.data) ∧
    (SourceFile.mk "src/a.ts" true .nil ⟨0, 0⟩ ∈
      (TSProgram.mk [SourceFile.mk "src/a.ts" true .nil ⟨0, 0⟩]).sourceFiles) ∧
    (SourceFile.mk "src/a.ts" true .nil ⟨0, 0⟩ ∉
      resolveValueNodes
        (KindSymbol.mk 0 "t" [] (some "src/a.ts") .file .leafNone)
        (TSProgram.mk [SourceFile.mk "src/a.ts" true .nil ⟨0, 0⟩])) := by
  decide

-- ── C2: noMutation diagnostics ──────────────────────────────────────────

/-- `visitMutationL` distributes over `NodeList.append`. -/
theorem visitMutationL_append :
    ∀ a b : NodeList, visitMutationL (a.append b) = visitMutationL a ++ visitMutationL b
  | .nil, b => by simp [NodeList.append, visitMutationL]
  | .cons n t, b => by simp [NodeList.append, visitMutationL, visitMutationL_append t b]

/-- Counterexample for C2 as stated: the file `let x = 0; x = 1; x++;`
checked under `{noMutation: true}` yields exactly one diagnostic with code
70013 — not at least two — because `checkSymbol` emits a single diagnostic
per rule per resolved artifact, built from the first violation only. -/
theorem c2_counterexample :
    ¬ (2 ≤ ((checkProgramPure [mutationTarget] mutationProgram).filter
        (fun d => d.code == 70013)).length) := by
  decide

/-- Claim C2 (amended): for every file containing the statements
`let x = 0; x = 1; x++;` checked under `{noMutation: true}`, the
`checkNoMutation` check records at least two violations (one per mutating
construct), but `check` surfaces exactly one diagnostic with code 70013
for the file (one per rule per resolved artifact, detailed with the first
violation). -/
theorem c2_noMutation_single_diagnostic
    (sf : SourceFile) (tsProgram : TSProgram) (i : Nat) (snm p : String)
    (pre post inits : NodeList) (sp1 sp2 sp3 sp4 sp5 : Span)
    (lhs rhs opnd : Node)
    (hstmts : sf.statements =
      pre.append
        (.cons (.variableStatement sp1 false inits)
          (.cons (.expressionStatement sp2
              (.binaryExpr sp3 .equalsToken lhs rhs))
            (.cons (.expressionStatement sp4
                (.postfixUnaryExpr sp5 .plusPlusToken opnd))
              post))))
    (hres : resolveValueNodes
        (.mk i snm [("noMutation", .trueVal)] (some p) .file .leafNone)
        tsProgram = [sf]) :
    (((checkProgramPure [.mk i snm [("noMutation", .trueVal)] (some p) .file .leafNone]
        tsProgram).filter (fun d => d.code == 70013)).length = 1) ∧
    2 ≤ (checkNoMutation sf).violations.length := by
  have hviol : 2 ≤ (visitMutationL sf.statements).length := by
    rw [hstmts, visitMutationL_append]
    simp [visitMutationL, visitMutation, isAssignmentOperator]
    omega
  have hok : ((visitMutationL sf.statements).length == 0) = false := by
    have h : (visitMutationL sf.statements).length ≠ 0 := by omega
    simpa using h
  constructor
  · simp only [checkProgramPure, List.flatMap_cons, List.flatMap_nil, List.append_nil,
      checkSymbol, hres, checkNodes, checkDeclared, booleanRuleDiagnostics,
      maxFanOutDiagnostics, intrinsicChecks, List.lookup, checkNoMutation,
      mkCheckResult, hok]
    simp [createDiagnostic, errorCodeMap, List.lookup]
  · simpa [checkNoMutation, mkCheckResult] using hviol

/-- Witness for C2 (amended): the concrete `let x = 0; x = 1; x++;` file. -/
theorem c2_noMutation_single_diagnostic_witness :
    (((checkProgramPure [mutationTarget] mutationProgram).filter
        (fun d => d.code == 70013)).length = 1) ∧
    2 ≤ (checkNoMutation mutationFile).violations.length :=
  c2_noMutation_single_diagnostic mutationFile mutationProgram 0 "f" "f.ts"
    .nil .nil (.cons (.otherNode ⟨8, 1⟩ .nil) .nil)
    ⟨0, 10⟩ ⟨11, 6⟩ ⟨11, 5⟩ ⟨18, 4⟩ ⟨18, 3⟩
    (.identifier ⟨11, 1⟩ "x") (.otherNode ⟨15, 1⟩ .nil) (.identifier ⟨18, 1⟩ "x")
    rfl (by decide)

-- ── C7: noConsole ───────────────────────────────────────────────────────

/-- `ConsoleGood` for two empty lists. -/
theorem ConsoleGood.base : ConsoleGood [] [] :=
  ⟨fun _ => rfl, fun a h => by cases h⟩

/-- `ConsoleGood` is preserved by concatenation on both sides. -/
theorem ConsoleGood.append {v1 v2 : List PropertyViolation} {a1 a2 : List Node}
    (h1 : ConsoleGood v1 a1) (h2 : ConsoleGood v2 a2) :
    ConsoleGood (v1 ++ v2) (a1 ++ a2) := by
  constructor
  · intro h
    obtain ⟨e1, e2⟩ := List.append_eq_nil.mp h
    rw [h1.1 e1, h2.1 e2]
    rfl
  · intro a ha
    cases a1 with
    | nil =>
      simp only [List.nil_append] at ha
      rw [h1.1 rfl, h2.2 a ha]
      rfl
    | cons x xs =>
      simp only [List.cons_append, List.cons.injEq] at ha
      obtain ⟨hx, hrest⟩ := ha
      obtain ⟨e1, e2⟩ := List.append_eq_nil.mp hrest
      have h1' : v1 = [consoleViolation a] := h1.2 a (by rw [hx, e1])
      rw [h1', h2.1 e2]
      rfl

mutual
/-- `checkNoConsole`'s visitor agrees with the full console-access list on
files with at most one access. -/
theorem visitConsole_good : ∀ n : Node, ConsoleGood (visitConsole n) (consoleAccesses n)
  | .importDecl _ spec => by
    simpa only [visitConsole, consoleAccesses] using visitConsole_good spec
  | .importEqualsDecl _ => ConsoleGood.base
  | .exportDecl _ => ConsoleGood.base
  | .exportAssignment _ e => by
    simpa only [visitConsole, consoleAccesses] using visitConsole_good e
  | .typeAliasDecl _ => ConsoleGood.base
  | .interfaceDecl _ => ConsoleGood.base
  | .variableStatement _ _ inits => by
    simpa only [visitConsole, consoleAccesses] using visitConsoleL_good inits
  | .functionDecl _ b => by
    simpa only [visitConsole, consoleAccesses] using visitConsoleL_good b
  | .classDecl _ b => by
    simpa only [visitConsole, consoleAccesses] using visitConsoleL_good b
  | .enumDecl _ is => by
    simpa only [visitConsole, consoleAccesses] using visitConsoleL_good is
  | .moduleDecl _ b => by
    simpa only [visitConsole, consoleAccesses] using visitConsoleL_good b
  | .expressionStatement _ e => by
    simpa only [visitConsole, consoleAccesses] using visitConsole_good e
  | .binaryExpr _ _ l r => by
    simpa only [visitConsole, consoleAccesses] using
      (visitConsole_good l).append (visitConsole_good r)
  | .prefixUnaryExpr _ _ e => by
    simpa only [visitConsole, consoleAccesses] using visitConsole_good e
  | .postfixUnaryExpr _ _ e => by
    simpa only [visitConsole, consoleAccesses] using visitConsole_good e
  | .deleteExpr _ e => by
    simpa only [visitConsole, consoleAccesses] using visitConsole_good e
  | .callExpr _ c args => by
    simpa only [visitConsole, consoleAccesses] using
      (visitConsole_good c).append (visitConsoleL_good args)
  | .importKeywordExpr _ => ConsoleGood.base
  | .metaProperty _ _ => ConsoleGood.base
  | .propertyAccessExpr sp obj nm => by
    by_cases hc : isConsoleObj obj = true
    · obtain ⟨spo, hobj⟩ : ∃ spo, obj = Node.identifier spo "console" := by
        cases obj <;> simp [isConsoleObj] at hc
        rename_i spo t
        exact ⟨spo, by rw [hc]⟩
      subst hobj
      constructor
      · intro h
        simp [consoleAccesses, isConsoleObj] at h
      · intro a ha
        simp only [consoleAccesses, isConsoleObj, beq_self_eq_true, if_pos,
          List.append_nil, List.cons.injEq, and_true] at ha
        rw [← ha]
        simp [visitConsole, isConsoleObj, consoleViolation]
    · have hg := visitConsole_good obj
      simp only [visitConsole, consoleAccesses, hc, if_neg, Bool.false_eq_true,
        not_false_eq_true, List.nil_append]
      simpa using hg
  | .elementAccessExpr sp obj ix => by
    by_cases hc : isConsoleObj obj = true
    · obtain ⟨spo, hobj⟩ : ∃ spo, obj = Node.identifier spo "console" := by
        cases obj <;> simp [isConsoleObj] at hc
        rename_i spo t
        exact ⟨spo, by rw [hc]⟩
      subst hobj
      constructor
      · intro h
        simp [consoleAccesses, isConsoleObj] at h
      · intro a ha
        simp only [consoleAccesses, isConsoleObj, beq_self_eq_true, if_pos,
          List.nil_append, List.cons_append, List.cons.injEq] at ha
        obtain ⟨ha1, _⟩ := ha
        rw [← ha1]
        simp [visitConsole, isConsoleObj, consoleViolation]
    · have hg := (visitConsole_good obj).append (visitConsole_good ix)
      simp only [visitConsole, consoleAccesses, hc, if_neg, Bool.false_eq_true,
        not_false_eq_true, List.nil_append]
      simpa using hg
  | .identifier _ _ => ConsoleGood.base
  | .stringLit _ _ => ConsoleGood.base
  | .otherNode _ cs => by
    simpa only [visitConsole, consoleAccesses] using visitConsoleL_good cs

/-- List version of `visitConsole_good`. -/
theorem visitConsoleL_good : ∀ l : NodeList, ConsoleGood (visitConsoleL l) (consoleAccessesL l)
  | .nil => ConsoleGood.base
  | .cons n rest => by
    simpa only [visitConsoleL, consoleAccessesL] using
      (visitConsole_good n).append (visitConsoleL_good rest)
end

/-- Claim C7: a file whose only console access is one `console.log`
property access, checked under `{noConsole: true}` on a target resolving
to exactly that file, yields exactly one diagnostic, with code 70009 and a
message mentioning "console". -/
theorem c7_noConsole_single_diagnostic
    (sf : SourceFile) (tsProgram : TSProgram) (i : Nat) (snm p : String)
    (sp1 sp2 : Span)
    (hacc : consoleAccessesL sf.statements =
      [.propertyAccessExpr sp1 (.identifier sp2 "console") "log"])
    (hres : resolveValueNodes
        (.mk i snm [("noConsole", .trueVal)] (some p) .file .leafNone)
        tsProgram = [sf]) :
    checkProgramPure
        [.mk i snm [("noConsole", .trueVal)] (some p) .file .leafNone] tsProgram =
      [KSDiagnostic.mk sf sp1.start sp1.width
        "Value uses console: console.log" .error 70009 "noConsole"] ∧
    containsSeq "Value uses console: console.log".data "console".data = true := by
  have hvs : visitConsoleL sf.statements =
      [consoleViolation (.propertyAccessExpr sp1 (.identifier sp2 "console") "log")] :=
    (visitConsoleL_good sf.statements).2 _ hacc
  constructor
  · simp only [checkProgramPure, List.flatMap_cons, List.flatMap_nil, List.append_nil,
      checkSymbol, hres, checkNodes, checkDeclared, booleanRuleDiagnostics,
      maxFanOutDiagnostics, intrinsicChecks, List.lookup, checkNoConsole,
      mkCheckResult, hvs]
    simp only [consoleViolation, List.length_cons, List.length_nil, Nat.reduceAdd,
      List.append_nil]
    norm_num
    simp [createDiagnostic, errorCodeMap, messageMap, List.lookup, VNode.getStart,
      VNode.getWidth, Node.span]
  · decide

/-- Witness for C7: the concrete one-`console.log` file. -/
theorem c7_noConsole_single_diagnostic_witness :
    checkProgramPure [consoleTarget] consoleProgram =
      [KSDiagnostic.mk consoleFile 0 11
        "Value uses console: console.log" .error 70009 "noConsole"] ∧
    containsSeq "Value uses console: console.log".data "console".data = true := by
  have h := c7_noConsole_single_diagnostic consoleFile consoleProgram 0 "c" "c.ts"
    ⟨0, 11⟩ ⟨0, 7⟩ (by decide) (by decide)
  exact h

-- ── C8: maxFanOut ───────────────────────────────────────────────────────

/-- Claim C8: a target declaring `maxFanOut: N` resolving to exactly one
artifact — if that artifact imports exactly `N+1` distinct module
specifiers (static and dynamic counted as one set), `check` returns
exactly one diagnostic, with code 70014 and a message reporting `N+1` as
the actual count; if it imports exactly `N`, `check` returns none. -/
theorem c8_maxFanOut_boundary
    (sf : SourceFile) (tsProgram : TSProgram) (i : Nat) (snm p : String) (N : Nat)
    (hres : resolveValueNodes
        (.mk i snm [("maxFanOut", .numVal (N : Int))] (some p) .file .leafNone)
        tsProgram = [sf]) :
    ((importSpecifiersOf sf).length = N + 1 →
      checkProgramPure
          [.mk i snm [("maxFanOut", .numVal (N : Int))] (some p) .file .leafNone]
          tsProgram =
        [KSDiagnostic.mk sf sf.sp.start sf.sp.width
          ("Value exceeds maximum fan-out" ++ ": " ++
            (toString (N + 1) ++ " dependencies, max is " ++ toString ((N : Int))))
          .error 70014 "maxFanOut"]) ∧
    ((importSpecifiersOf sf).length = N →
      checkProgramPure
          [.mk i snm [("maxFanOut", .numVal (N : Int))] (some p) .file .leafNone]
          tsProgram = []) := by
  constructor
  · intro hlen
    have hnotle : ¬ (((N + 1 : Nat) : Int) ≤ (N : Int)) := by
      push_cast
      omega
    simp only [checkProgramPure, List.flatMap_cons, List.flatMap_nil, List.append_nil,
      checkSymbol, hres, checkNodes, checkDeclared, booleanRuleDiagnostics,
      maxFanOutDiagnostics, intrinsicChecks, List.lookup, checkMaxFanOut, hlen,
      decide_eq_false hnotle, Bool.false_eq_true, if_false, List.nil_append]
    simp [createDiagnostic, errorCodeMap, messageMap, List.lookup, VNode.getStart,
      VNode.getWidth]
  · intro hlen
    have hle : ((N : Nat) : Int) ≤ (N : Int) := le_refl _
    simp only [checkProgramPure, List.flatMap_cons, List.flatMap_nil, List.append_nil,
      checkSymbol, hres, checkNodes, checkDeclared, booleanRuleDiagnostics,
      maxFanOutDiagnostics, intrinsicChecks, List.lookup, checkMaxFanOut, hlen,
      decide_eq_true hle, if_true, List.nil_append]
    simp [hle]

/-- Witness for C8: `maxFanOut: 1` against a two-import file (one 70014
diagnostic reporting 2) and against a one-import file (no diagnostics). -/
theorem c8_maxFanOut_boundary_witness :
    (checkProgramPure [fanOutTarget] fanOutProgramTwo =
      [KSDiagnostic.mk fanOutFileTwo 0 21
        ("Value exceeds maximum fan-out" ++ ": " ++
          (toString (1 + 1) ++ " dependencies, max is " ++ toString ((1 : Int))))
        .error 70014 "maxFanOut"]) ∧
    (checkProgramPure [fanOutTarget] fanOutProgramOne = []) := by
  constructor
  · exact (c8_maxFanOut_boundary fanOutFileTwo fanOutProgramTwo 0 "g" "g.ts" 1
      (by decide)).1 (by decide)
  · exact (c8_maxFanOut_boundary fanOutFileOne fanOutProgramOne 0 "g" "g.ts" 1
      (by decide)).2 (by decide)

-- ── C9: diagnostic invariants ───────────────────────────────────────────

/-- A name the registry resolves is one of the eight registered names. -/
theorem intrinsicChecks_cases (p : String) (c : SourceFile → CheckResult)
    (h : intrinsicChecks p = some c) :
    p = "noImports" ∨ p = "noConsole" ∨ p = "immutable" ∨ p = "static" ∨
    p = "noSideEffects" ∨ p = "noMutation" ∨ p = "noIO" ∨ p = "pure" := by
  unfold intrinsicChecks at h
  split at h <;> simp_all

/-- `createDiagnostic` for a registered name satisfies the invariant. -/
theorem createDiagnostic_wf_of_registered (p : String) (c : SourceFile → CheckResult)
    (sf : SourceFile) (vio : Option PropertyViolation)
    (h : intrinsicChecks p = some c) :
    diagnosticWellFormed (createDiagnostic p sf vio) := by
  rcases intrinsicChecks_cases p c h with h' | h' | h' | h' | h' | h' | h' | h' <;>
    subst h' <;>
    exact ⟨rfl, rfl, by simp [createDiagnostic, errorCodeMap, List.lookup],
      by simp [createDiagnostic, errorCodeMap, List.lookup], Or.inl rfl⟩

/-- `createDiagnostic` for `maxFanOut` satisfies the invariant. -/
theorem createDiagnostic_wf_maxFanOut (sf : SourceFile)
    (vio : Option PropertyViolation) :
    diagnosticWellFormed (createDiagnostic "maxFanOut" sf vio) :=
  ⟨rfl, rfl, by simp [createDiagnostic, errorCodeMap, List.lookup],
    by simp [createDiagnostic, errorCodeMap, List.lookup], Or.inr rfl⟩

/-- All diagnostics of the boolean-rule loop satisfy the invariant. -/
theorem booleanRuleDiagnostics_wf :
    ∀ (props : PropertySpec) (sf : SourceFile),
      ∀ d ∈ booleanRuleDiagnostics props sf, diagnosticWellFormed d
  | [], _ => by simp [booleanRuleDiagnostics]
  | (p, v) :: rest, sf => by
    intro d hd
    simp only [booleanRuleDiagnostics] at hd
    rcases List.mem_append.mp hd with h | h
    · cases v with
      | trueVal =>
        cases hc : intrinsicChecks p with
        | none => simp [hc] at h
        | some c =>
          by_cases hok : (c sf).ok
          · simp [hc, hok] at h
          · simp [hc, hok] at h
            subst h
            exact createDiagnostic_wf_of_registered p c sf _ hc
      | falseVal => simp at h
      | numVal n => simp at h
      | strVal sv => simp at h
      | pairsVal ps => simp at h
      | namesVal ns => simp at h
    · exact booleanRuleDiagnostics_wf rest sf d h

/-- All diagnostics of the `maxFanOut` step satisfy the invariant. -/
theorem maxFanOutDiagnostics_wf (props : PropertySpec) (sf : SourceFile) :
    ∀ d ∈ maxFanOutDiagnostics props sf, diagnosticWellFormed d := by
  intro d hd
  unfold maxFanOutDiagnostics at hd
  cases hlk : List.lookup "maxFanOut" props with
  | none => rw [hlk] at hd; simp at hd
  | some v =>
    rw [hlk] at hd
    cases v with
    | numVal n =>
      by_cases hok : (checkMaxFanOut sf n).ok
      · simp [hok] at hd
      · simp [hok] at hd
        subst hd
        exact createDiagnostic_wf_maxFanOut sf _
    | trueVal => simp at hd
    | falseVal => simp at hd
    | strVal sv => simp at hd
    | pairsVal ps => simp at hd
    | namesVal ns => simp at hd

/-- All diagnostics of the per-artifact check satisfy the invariant. -/
theorem checkDeclared_wf (props : PropertySpec) (sf : SourceFile) :
    ∀ d ∈ checkDeclared props sf, diagnosticWellFormed d := by
  intro d hd
  rcases List.mem_append.mp hd with h | h
  · exact booleanRuleDiagnostics_wf props sf d h
  · exact maxFanOutDiagnostics_wf props sf d h

/-- All diagnostics of the node loop satisfy the invariant. -/
theorem checkNodes_wf (props : PropertySpec) :
    ∀ (nodes : List SourceFile), ∀ d ∈ checkNodes props nodes, diagnosticWellFormed d
  | [] => by simp [checkNodes]
  | sf :: rest => by
    intro d hd
    rw [checkNodes] at hd
    rcases List.mem_append.mp hd with h | h
    · exact checkDeclared_wf props sf d h
    · exact checkNodes_wf props rest d h

mutual
/-- All diagnostics `checkSymbol` emits satisfy the invariant. -/
theorem checkSymbol_wf (tsProgram : TSProgram) :
    ∀ sym : KindSymbol, ∀ d ∈ checkSymbol tsProgram sym, diagnosticWellFormed d
  | .mk i nm props path .composite (.table ms) => by
    intro d hd
    exact checkSymbolMembers_wf tsProgram ms d hd
  | .mk i nm props path .composite .leafNone => by
    intro d hd
    exact checkNodes_wf props _ d hd
  | .mk i nm props path .file members => by
    intro d hd
    exact checkNodes_wf props _ d hd
  | .mk i nm props path .directory members => by
    intro d hd
    exact checkNodes_wf props _ d hd

/-- All diagnostics of the member recursion satisfy the invariant. -/
theorem checkSymbolMembers_wf (tsProgram : TSProgram) :
    ∀ ms : MemberList, ∀ d ∈ checkSymbolMembers tsProgram ms, diagnosticWellFormed d
  | .nil => by simp [checkSymbolMembers]
  | .cons n m rest => by
    intro d hd
    rw [checkSymbolMembers] at hd
    rcases List.mem_append.mp hd with h | h
    · exact checkSymbol_wf tsProgram m d h
    · exact checkSymbolMembers_wf tsProgram rest d h
end

/-- `List.lookup` skips an entry whose key differs. -/
theorem lookup_skip_middle (key pname : String) (v : RuleValue)
    (props1 props2 : PropertySpec) (hne : pname ≠ key) :
    List.lookup key (props1 ++ (pname, v) :: props2) =
      List.lookup key (props1 ++ props2) := by
  induction props1 with
  | nil =>
    have : (key == pname) = false := by
      simpa using fun h => hne h.symm
    simp [List.lookup, this]
  | cons q rest ih =>
    obtain ⟨qk, qv⟩ := q
    by_cases h : key == qk <;> simp [List.lookup, h, ih]

/-- The boolean loop skips an entry whose name the registry does not
resolve. -/
theorem booleanRuleDiagnostics_skip_unknown (pname : String) (v : RuleValue)
    (props1 props2 : PropertySpec) (sf : SourceFile)
    (hun : intrinsicChecks pname = none) :
    booleanRuleDiagnostics (props1 ++ (pname, v) :: props2) sf =
      booleanRuleDiagnostics (props1 ++ props2) sf := by
  induction props1 with
  | nil =>
    cases v <;> simp [booleanRuleDiagnostics, hun]
  | cons q rest ih =>
    obtain ⟨qk, qv⟩ := q
    simp only [List.cons_append, booleanRuleDiagnostics, List.append_eq, ih]

/-- Claim C9: every diagnostic `check` emits has severity error and the
code the fixed rule-code table assigns to its violated rule, inside the
closed range 70001–70015, and its rule is one the engine recognizes; a
declared rule name the engine does not recognize (and which is not
`maxFanOut`) contributes nothing — removing it leaves the per-artifact
check output unchanged, and no abort is possible (the check is total). -/
theorem c9_diagnostics_wellformed :
    (∀ (targets : List KindSymbol) (tsProgram : TSProgram),
      ∀ d ∈ checkProgramPure targets tsProgram, diagnosticWellFormed d) ∧
    (∀ (pname : String) (v : RuleValue) (props1 props2 : PropertySpec)
        (sf : SourceFile),
      intrinsicChecks pname = none → pname ≠ "maxFanOut" →
      checkDeclared (props1 ++ (pname, v) :: props2) sf =
        checkDeclared (props1 ++ props2) sf) := by
  constructor
  · intro targets tsProgram d hd
    rw [checkProgramPure] at hd
    obtain ⟨t, _, hmem⟩ := List.mem_flatMap.mp hd
    exact checkSymbol_wf tsProgram t d hmem
  · intro pname v props1 props2 sf hun hne
    unfold checkDeclared maxFanOutDiagnostics
    rw [booleanRuleDiagnostics_skip_unknown pname v props1 props2 sf hun,
      lookup_skip_middle "maxFanOut" pname v props1 props2 hne]

/-- Witness for C9: the concrete `console.log` diagnostic is well formed,
and an unrecognized rule name (`bogus`) contributes nothing. -/
theorem c9_diagnostics_wellformed_witness :
    diagnosticWellFormed
      (KSDiagnostic.mk consoleFile 0 11
        "Value uses console: console.log" .error 70009 "noConsole") ∧
    checkDeclared ([("noConsole", .trueVal)] ++ ("bogus", .trueVal) :: [])
        consoleFile =
      checkDeclared ([("noConsole", .trueVal)] ++ []) consoleFile := by
  constructor
  · exact c9_diagnostics_wellformed.1 [consoleTarget] consoleProgram _ (by decide)
  · exact c9_diagnostics_wellformed.2 "bogus" .trueVal [("noConsole", .trueVal)] []
      consoleFile rfl (by decide)

/-- Witness for C4: the caching equations at a concrete session. -/
theorem c4_checkProgram_idempotent_and_cached_witness :
    ((checkProgram (checkProgram (createKSChecker consoleProgram [consoleTarget])).2).1 =
        (checkProgram (createKSChecker consoleProgram [consoleTarget])).1) ∧
    ((checkProgram (createKSChecker consoleProgram [consoleTarget])).2.cached =
        some (checkProgram (createKSChecker consoleProgram [consoleTarget])).1) :=
  ⟨(c4_checkProgram_idempotent_and_cached [consoleTarget] consoleProgram).1,
   (c4_checkProgram_idempotent_and_cached [consoleTarget] consoleProgram).2.2.1⟩

/-- Witness for C5: a concrete one-composite config binds as described. -/
theorem c5_ksBind_single_pass_witness :
    List.Forall₂ entryMatches
      [("app", ConfigEntry.compositeEntry
        [("a", ⟨"src/a", none⟩), ("b", ⟨"src/b.ts", none⟩)] none)]
      (ksBind [("app", ConfigEntry.compositeEntry
        [("a", ⟨"src/a", none⟩), ("b", ⟨"src/b.ts", none⟩)] none)]).targets ∧
    (ksBind [("app", ConfigEntry.compositeEntry
        [("a", ⟨"src/a", none⟩), ("b", ⟨"src/b.ts", none⟩)] none)]).symbols.map
        KindSymbol.id =
      List.range (ksBind [("app", ConfigEntry.compositeEntry
        [("a", ⟨"src/a", none⟩), ("b", ⟨"src/b.ts", none⟩)] none)]).symbols.length :=
  ⟨(c5_ksBind_single_pass _).2.1, (c5_ksBind_single_pass _).1⟩

/-- Witness for C10: the filter equation at a concrete session and file. -/
theorem c10_checkSourceFile_filters_checkProgram_witness :
    (checkSourceFile consoleFile (createKSChecker consoleProgram [consoleTarget])).1 =
      if consoleFile.isDeclarationFile then []
      else (checkProgram (createKSChecker consoleProgram [consoleTarget])).1.filter
        (fun d => d.file.fileName == consoleFile.fileName) :=
  c10_checkSourceFile_filters_checkProgram
    (createKSChecker consoleProgram [consoleTarget]) consoleFile

-- ── C1: noCycles detects a three-cycle ──────────────────────────────────

/-- If the next pending node is already on the active path, the search
reports a cycle (whatever else it finds). -/
theorem dfsSeq_ne_of_mem
    (rec : List String → List String → List String → List (List String) × List String)
    (adj : String → List String) (n : String) (rest path visited : List String)
    (h : n ∈ path) :
    (dfsSeq rec adj (n :: rest) path visited).1 ≠ [] := by
  simp [dfsSeq, h]

/-- If the next pending node is fresh and exploring it reports a cycle,
the search reports a cycle. -/
theorem dfsSeq_ne_of_rec
    (rec : List String → List String → List String → List (List String) × List String)
    (adj : String → List String) (n : String) (rest path visited : List String)
    (h1 : n ∉ path) (h2 : n ∉ visited)
    (h3 : (rec (adj n) (path ++ [n]) (n :: visited)).1 ≠ []) :
    (dfsSeq rec adj (n :: rest) path visited).1 ≠ [] := by
  simp only [dfsSeq, if_neg h1, if_neg h2]
  intro hcontra
  exact h3 (List.append_eq_nil.mp hcontra).1

/-- Claim C1 (spec-modelled): a composite with members `A`, `B`, `C`
declaring `noCycles: [A, B, C]`, whose import-edge set contains
`A→B`, `B→C` and `C→A`, yields at least one diagnostic with code 70004. -/
theorem c1_noCycles_detects_three_cycle
    (A B C : String) (edges : List (String × String))
    (hab : (A, B) ∈ edges) (hbc : (B, C) ∈ edges) (hca : (C, A) ∈ edges)
    (hAB : A ≠ B) (hBC : B ≠ C) (hAC : A ≠ C) :
    ∃ d ∈ noCyclesDiagnostics [A, B, C] edges, d.code = 70004 := by
  suffices hne : checkNoCycles [A, B, C] edges ≠ [] by
    obtain ⟨cyc, hcyc⟩ := List.exists_mem_of_ne_nil _ hne
    exact ⟨_, List.mem_map_of_mem _ hcyc, rfl⟩
  set adj := restrictAdjacency [A, B, C] edges with hadjdef
  have hKN : checkNoCycles [A, B, C] edges = (dfsFuel adj 4 [A, B, C] [] []).1 := rfl
  have step4 : ∀ s p v, dfsFuel adj 4 s p v = dfsSeq (dfsFuel adj 3) adj s p v :=
    fun _ _ _ => rfl
  have step3 : ∀ s p v, dfsFuel adj 3 s p v = dfsSeq (dfsFuel adj 2) adj s p v :=
    fun _ _ _ => rfl
  have step2 : ∀ s p v, dfsFuel adj 2 s p v = dfsSeq (dfsFuel adj 1) adj s p v :=
    fun _ _ _ => rfl
  have step1 : ∀ s p v, dfsFuel adj 1 s p v = dfsSeq (dfsFuel adj 0) adj s p v :=
    fun _ _ _ => rfl
  rw [hKN, step4]
  -- seed A is fresh; dig into its exploration
  refine dfsSeq_ne_of_rec _ adj A [B, C] [] [] (by simp) (by simp) ?_
  rw [step3]
  simp only [List.nil_append]
  by_cases haa : (A, A) ∈ edges
  · -- self-loop on A: first successor of A is A, already on the path
    have hA : adj A = A :: List.filter (fun n => decide ((A, n) ∈ edges)) [B, C] := by
      simp [hadjdef, restrictAdjacency, List.filter, decide_eq_true haa]
    rw [hA]
    exact dfsSeq_ne_of_mem _ adj A _ [A] [A] (by simp)
  · -- first successor of A is B
    have hA : adj A = B :: List.filter (fun n => decide ((A, n) ∈ edges)) [C] := by
      simp [hadjdef, restrictAdjacency, List.filter, decide_eq_true hab,
        decide_eq_false haa]
    rw [hA]
    refine dfsSeq_ne_of_rec _ adj B _ [A] [A]
      (by simp [Ne.symm hAB]) (by simp [Ne.symm hAB]) ?_
    rw [step2]
    by_cases hba : (B, A) ∈ edges
    · -- back-edge B→A: A is on the active path
      have hB : adj B = A :: List.filter (fun n => decide ((B, n) ∈ edges)) [B, C] := by
        simp [hadjdef, restrictAdjacency, List.filter, decide_eq_true hba]
      rw [hB]
      exact dfsSeq_ne_of_mem _ adj A _ ([A] ++ [B]) (B :: [A]) (by simp)
    · by_cases hbb : (B, B) ∈ edges
      · -- self-loop on B: B is on the active path
        have hB : adj B = B :: List.filter (fun n => decide ((B, n) ∈ edges)) [C] := by
          simp [hadjdef, restrictAdjacency, List.filter, decide_eq_true hbb,
            decide_eq_false hba]
        rw [hB]
        exact dfsSeq_ne_of_mem _ adj B _ ([A] ++ [B]) (B :: [A]) (by simp)
      · -- first successor of B is C
        have hB : adj B = [C] := by
          simp [hadjdef, restrictAdjacency, List.filter, decide_eq_true hbc,
            decide_eq_false hba, decide_eq_false hbb]
        rw [hB]
        refine dfsSeq_ne_of_rec _ adj C _ ([A] ++ [B]) (B :: [A])
          (by
            intro h
            rcases List.mem_append.mp h with h | h <;> rw [List.mem_singleton] at h
            · exact hAC h.symm
            · exact hBC h.symm)
          (by simp [Ne.symm hBC, Ne.symm hAC]) ?_
        rw [step1]
        -- back-edge C→A: A is on the active path
        have hC : adj C = A :: List.filter (fun n => decide ((C, n) ∈ edges)) [B, C] := by
          simp [hadjdef, restrictAdjacency, List.filter, decide_eq_true hca]
        rw [hC]
        exact dfsSeq_ne_of_mem _ adj A _ (([A] ++ [B]) ++ [C]) (C :: B :: [A]) (by simp)

/-- Witness for C1: the concrete three-member cycle `a → b → c → a`. -/
theorem c1_noCycles_detects_three_cycle_witness :
    ∃ d ∈ noCyclesDiagnostics ["a", "b", "c"] [("a", "b"), ("b", "c"), ("c", "a")],
      d.code = 70004 :=
  c1_noCycles_detects_three_cycle "a" "b" "c" [("a", "b"), ("b", "c"), ("c", "a")]
    (by decide) (by decide) (by decide) (by decide) (by decide) (by decide)

end KSC
